import Mathlib

/-!
# Verification of the kecs entity-component-system core

This file is a shallow embedding, in Lean 4, of the core data structures and
operations of the kecs ECS runtime (Rust), together with theorems settling the
frozen claims about it.

Conventions of the embedding:
* Rust machine integers are modelled as `Nat`; where wrap-around matters
  (`u32` generation counters, 64-bit hashing) the arithmetic is taken
  explicitly modulo `2^32` resp. `2^64`.
* `panic!`/`expect`/`assert!`/out-of-bounds aborts are modelled by `Option`
  (`none` = the process terminates).  Reads of uninitialized column slots
  (undefined behaviour in the source) are also mapped to `none`.
* Runtime types are represented by their registered `ComponentId` (the dense
  integer the `TypeRegistrar` assigns on first sight: distinct types receive
  distinct ids, the same type always the same id).  Component and resource
  values are drawn from `Nat`; the source is generic in the value type and
  never inspects values.
* The model is single-threaded: thread-identity checks of `!Send` resources
  are not modelled (no claim depends on them).
-/

namespace Kecs

/-- Maximum value of `usize` on the 64-bit targets the crate builds for;
`SparseSet::ensure_capacity_for` fills fresh sparse slots with it. -/
def usizeMax : Nat := 18446744073709551615

/-! ## SparseSet (src/src/sparse_set.rs)

A literal embedding of `SparseSet<I, T>`: a `dense` vector of (key, value)
pairs plus a `sparse` vector mapping a key's integer form to its position in
`dense`.  `SpIdx` plays the role of the `SparseIndex` trait; `ComponentId`
maps to its registrar integer, `Entity` to its index field alone (the
`From<Entity> for usize` impl ignores the generation). -/

/-- The `SparseIndex` trait: the key's unique integer index. -/
class SpIdx (κ : Type) where
  idx : κ → Nat

instance : SpIdx Nat := ⟨fun n => n⟩

/-- `Entity` is an (index, generation) pair; its `usize` form is the index
field only. -/
instance : SpIdx (Nat × Nat) := ⟨Prod.fst⟩

structure SpSet (κ : Type) (τ : Type) where
  dense : List (κ × τ)
  sparse : List Nat
  deriving DecidableEq, Repr

namespace SpSet

variable {κ τ : Type} [SpIdx κ]

def empty : SpSet κ τ := ⟨[], []⟩

/-- `SparseSet::len`. -/
def size (s : SpSet κ τ) : Nat := s.dense.length

/-- `SparseSet::is_empty`. -/
def isEmpty (s : SpSet κ τ) : Bool := s.dense.length == 0

/-- `SparseSet::get_key`: follow `sparse[index]` into `dense` and validate. -/
def getKey (s : SpSet κ τ) (index : Nat) : Option Nat :=
  (s.sparse[index]?).bind fun keyIndex =>
    (s.dense[keyIndex]?).bind fun kv =>
      if SpIdx.idx kv.1 = index then some keyIndex else none

/-- `SparseSet::get`. -/
def get (s : SpSet κ τ) (k : κ) : Option τ :=
  (s.getKey (SpIdx.idx k)).bind fun j => (s.dense[j]?).map Prod.snd

/-- `SparseSet::contains`. -/
def containsKey (s : SpSet κ τ) (k : κ) : Bool := (s.get k).isSome

/-- `SparseSet::ensure_capacity_for`: resize `sparse` to `index + 1`,
filling new slots with `usize::MAX`. -/
def ensureCapacityFor (s : SpSet κ τ) (index : Nat) : SpSet κ τ :=
  if s.sparse.length ≤ index then
    { s with sparse := s.sparse ++ List.replicate (index + 1 - s.sparse.length) usizeMax }
  else s

/-- `SparseSet::insert`.  Returns the updated set and `true` iff the index
was not present (on a hit only the stored value is overwritten). -/
def insert (s : SpSet κ τ) (k : κ) (v : τ) : SpSet κ τ × Bool :=
  let indexValue := SpIdx.idx k
  match s.getKey indexValue with
  | some key =>
    match s.dense[key]? with
    | some kv => ({ s with dense := s.dense.set key (kv.1, v) }, false)
    | none => (s, false)
  | none =>
    let len := s.dense.length
    let s1 : SpSet κ τ := { s with dense := s.dense ++ [(k, v)] }
    let s2 := s1.ensureCapacityFor indexValue
    ({ s2 with sparse := s2.sparse.set indexValue len }, true)

/-- Swap two list positions (`Vec::swap`). -/
def listSwap (l : List (κ × τ)) (i j : Nat) : List (κ × τ) :=
  match l[i]?, l[j]? with
  | some a, some b => (l.set i b).set j a
  | _, _ => l

/-- `SparseSet::remove`: swap the removed entry with the last one, retarget
the moved key's sparse slot, pop.  Returns `true` iff the key was present. -/
def remove (s : SpSet κ τ) (k : κ) : SpSet κ τ × Bool :=
  if (s.get k).isSome then
    let n := s.dense.length - 1
    let indexAddr := s.sparse.getD (SpIdx.idx k) 0
    match s.dense[n]? with
    | some oldEntry =>
      ({ dense := (listSwap s.dense indexAddr n).dropLast,
         sparse := s.sparse.set (SpIdx.idx oldEntry.1) indexAddr }, true)
    | none => (s, false)
  else (s, false)

/-- The `get_mut`-and-assign pattern: overwrite the value stored for `k`
(if present), keeping the stored key. -/
def setValueAt (s : SpSet κ τ) (k : κ) (v : τ) : SpSet κ τ :=
  match s.getKey (SpIdx.idx k) with
  | some j =>
    match s.dense[j]? with
    | some kv => { s with dense := s.dense.set j (kv.1, v) }
    | none => s
  | none => s

/-- `SparseSet::iter` yields the dense pairs in insertion order; this is its
key projection (what `ArchetypeManager::archetype_of` hashes). -/
def keySeq (s : SpSet κ τ) : List κ := s.dense.map Prod.fst

/-- `SparseSet::clear` drops `dense` only. -/
def clear (s : SpSet κ τ) : SpSet κ τ := { s with dense := [] }

/-! ### Well-formedness of a sparse set

`Inv` states that every dense entry is pointed back at by the sparse slot of
its key — the "`sparse[k]` is valid iff `dense[sparse[k]].key == k`"
invariant from the source comment, for the live entries. -/

def Inv (s : SpSet κ τ) : Prop :=
  ∀ j : Nat, ∀ kv : κ × τ, s.dense[j]? = some kv → s.sparse[SpIdx.idx kv.1]? = some j

instance (s : SpSet κ τ) : Decidable s.Inv := by
  unfold Inv
  have : (∀ j (h : j < s.dense.length), ∀ kv : κ × τ, s.dense[j]? = some kv →
      s.sparse[SpIdx.idx kv.1]? = some j) ↔
      (∀ j : Nat, ∀ kv : κ × τ, s.dense[j]? = some kv →
      s.sparse[SpIdx.idx kv.1]? = some j) := by
    constructor
    · intro h j kv hj
      by_cases hlt : j < s.dense.length
      · exact h j hlt kv hj
      · rw [List.getElem?_eq_none (Nat.le_of_not_lt hlt)] at hj
        cases hj
    · intro h j _ kv hj
      exact h j kv hj
  exact decidable_of_iff _ this

theorem inv_empty : (empty : SpSet κ τ).Inv := by
  intro j kv hj
  simp [empty] at hj

theorem inv_keys_distinct {s : SpSet κ τ} (hs : s.Inv) {j1 j2 : Nat}
    {kv1 kv2 : κ × τ} (h1 : s.dense[j1]? = some kv1) (h2 : s.dense[j2]? = some kv2)
    (he : SpIdx.idx kv1.1 = SpIdx.idx kv2.1) : j1 = j2 := by
  have e1 := hs j1 kv1 h1
  have e2 := hs j2 kv2 h2
  rw [he] at e1
  rw [e1] at e2
  exact Option.some_inj.mp e2

/-- Characterization of `getKey` on a well-formed set. -/
theorem getKey_char {s : SpSet κ τ} (hs : s.Inv) {i j : Nat} :
    s.getKey i = some j ↔ ∃ kv : κ × τ, s.dense[j]? = some kv ∧ SpIdx.idx kv.1 = i := by
  constructor
  · intro h
    unfold getKey at h
    cases hsp : s.sparse[i]? with
    | none => simp [hsp] at h
    | some ki =>
      simp only [hsp, Option.some_bind] at h
      cases hd : s.dense[ki]? with
      | none => simp [hd] at h
      | some kv =>
        simp only [hd, Option.some_bind] at h
        by_cases hidx : SpIdx.idx kv.1 = i
        · simp only [if_pos hidx, Option.some_inj] at h
          subst h
          exact ⟨kv, hd, hidx⟩
        · simp [if_neg hidx] at h
  · rintro ⟨kv, hd, hidx⟩
    have hsp := hs j kv hd
    rw [hidx] at hsp
    unfold getKey
    simp [hsp, hd, hidx]

/-- Characterization of `get` on a well-formed set. -/
theorem get_char {s : SpSet κ τ} (hs : s.Inv) {k : κ} {v : τ} :
    s.get k = some v ↔
    ∃ j : Nat, ∃ k0 : κ, s.dense[j]? = some (k0, v) ∧ SpIdx.idx k0 = SpIdx.idx k := by
  constructor
  · intro h
    unfold get at h
    cases hk : s.getKey (SpIdx.idx k) with
    | none => simp [hk] at h
    | some j =>
      obtain ⟨kv, hd, hidx⟩ := (getKey_char hs).mp hk
      simp only [hk, Option.some_bind, hd] at h
      simp at h
      subst h
      exact ⟨j, kv.1, by rw [← hd], hidx⟩
  · rintro ⟨j, k0, hd, hidx⟩
    have hk : s.getKey (SpIdx.idx k) = some j :=
      (getKey_char hs).mpr ⟨(k0, v), hd, hidx⟩
    unfold get
    simp [hk, hd]

theorem get_none_char {s : SpSet κ τ} (hs : s.Inv) {k : κ} :
    s.get k = none ↔
    ∀ j : Nat, ∀ kv : κ × τ, s.dense[j]? = some kv → SpIdx.idx kv.1 ≠ SpIdx.idx k := by
  constructor
  · intro h j kv hd hidx
    have : s.get k = some kv.2 := (get_char hs).mpr ⟨j, kv.1, by rw [← hd], hidx⟩
    rw [h] at this
    cases this
  · intro h
    cases hg : s.get k with
    | none => rfl
    | some v =>
      obtain ⟨j, k0, hd, hidx⟩ := (get_char hs).mp hg
      exact absurd hidx (h j (k0, v) hd)

/-- Two options are equal when they agree on every `some`. -/
theorem optionEqOfSomeIff {α : Type} {a b : Option α}
    (h : ∀ v, a = some v ↔ b = some v) : a = b := by
  cases a with
  | none =>
    cases b with
    | none => rfl
    | some w => exact absurd ((h w).mpr rfl) (by simp)
  | some v => exact ((h v).mp rfl).symm

theorem ensureCapacityFor_dense (s : SpSet κ τ) (i : Nat) :
    (s.ensureCapacityFor i).dense = s.dense := by
  unfold ensureCapacityFor
  split <;> rfl

theorem ensureCapacityFor_sparse_some {s : SpSet κ τ} {i j x : Nat}
    (h : s.sparse[j]? = some x) : (s.ensureCapacityFor i).sparse[j]? = some x := by
  unfold ensureCapacityFor
  split
  · have hj : j < s.sparse.length := by
      by_contra hc
      rw [List.getElem?_eq_none (Nat.le_of_not_lt hc)] at h
      cases h
    simp only
    rw [List.getElem?_append_left hj]
    exact h
  · exact h

theorem ensureCapacityFor_sparse_length (s : SpSet κ τ) (i : Nat) :
    i < (s.ensureCapacityFor i).sparse.length := by
  unfold ensureCapacityFor
  split
  · next hle =>
    simp only [List.length_append, List.length_replicate]
    omega
  · next hlt => exact Nat.lt_of_not_le hlt

/-! ### Effect of `insert` -/

theorem inv_insert {s : SpSet κ τ} (hs : s.Inv) (k : κ) (v : τ) :
    (s.insert k v).1.Inv := by
  cases hgk : s.getKey (SpIdx.idx k) with
  | some key =>
    obtain ⟨kv0, hd0, hidx0⟩ := (getKey_char hs).mp hgk
    simp only [insert, hgk, hd0]
    intro j kv2 hj
    have hkey : key < s.dense.length := by
      by_contra hc
      rw [List.getElem?_eq_none (Nat.le_of_not_lt hc)] at hd0
      cases hd0
    simp only at hj
    by_cases hje : j = key
    · subst hje
      rw [List.getElem?_set_self hkey] at hj
      cases hj
      have := hs j kv0 hd0
      simpa using this
    · rw [List.getElem?_set_ne (fun he => hje he.symm)] at hj
      exact hs j kv2 hj
  | none =>
    simp only [insert, hgk]
    intro j kv2 hj
    simp only [ensureCapacityFor_dense] at hj
    by_cases hjlt : j < s.dense.length
    · rw [List.getElem?_append_left hjlt] at hj
      have hsp := hs j kv2 hj
      have hne : SpIdx.idx kv2.1 ≠ SpIdx.idx k := by
        intro he
        have : s.getKey (SpIdx.idx k) = some j := (getKey_char hs).mpr ⟨kv2, hj, he⟩
        rw [hgk] at this
        cases this
      simp only
      rw [List.getElem?_set_ne (fun he => hne he.symm)]
      exact ensureCapacityFor_sparse_some hsp
    · have hlen : j < s.dense.length + 1 := by
        by_contra hc
        have : (s.dense ++ [(k, v)]).length ≤ j := by
          simp only [List.length_append, List.length_cons, List.length_nil]
          omega
        rw [List.getElem?_eq_none this] at hj
        cases hj
      have hje : j = s.dense.length := by omega
      subst hje
      rw [List.getElem?_append_right (Nat.le_refl _)] at hj
      simp only [Nat.sub_self, List.getElem?_cons_zero, Option.some_inj] at hj
      subst hj
      simp only
      have hcap := ensureCapacityFor_sparse_length
        { s with dense := s.dense ++ [(k, v)] } (SpIdx.idx k)
      rw [List.getElem?_set_self hcap]

theorem get_insert_self {s : SpSet κ τ} (hs : s.Inv) (k : κ) (v : τ) :
    (s.insert k v).1.get k = some v := by
  have hs2 := inv_insert hs k v
  apply (get_char hs2).mpr
  cases hgk : s.getKey (SpIdx.idx k) with
  | some key =>
    obtain ⟨kv0, hd0, hidx0⟩ := (getKey_char hs).mp hgk
    have hkey : key < s.dense.length := by
      by_contra hc
      rw [List.getElem?_eq_none (Nat.le_of_not_lt hc)] at hd0
      cases hd0
    refine ⟨key, kv0.1, ?_, hidx0⟩
    simp only [insert, hgk, hd0]
    rw [List.getElem?_set_self hkey]
  | none =>
    refine ⟨s.dense.length, k, ?_, rfl⟩
    simp only [insert, hgk, ensureCapacityFor_dense]
    rw [List.getElem?_append_right (Nat.le_refl _)]
    simp

theorem get_insert_ne {s : SpSet κ τ} (hs : s.Inv) {k k2 : κ} (v : τ)
    (hne : SpIdx.idx k2 ≠ SpIdx.idx k) :
    (s.insert k v).1.get k2 = s.get k2 := by
  have hs2 := inv_insert hs k v
  apply optionEqOfSomeIff
  intro w
  rw [get_char hs2, get_char hs]
  cases hgk : s.getKey (SpIdx.idx k) with
  | some key =>
    obtain ⟨kv0, hd0, hidx0⟩ := (getKey_char hs).mp hgk
    simp only [insert, hgk, hd0]
    have hkey : key < s.dense.length := by
      by_contra hc
      rw [List.getElem?_eq_none (Nat.le_of_not_lt hc)] at hd0
      cases hd0
    constructor
    · rintro ⟨j, k0, hj, hidx⟩
      by_cases hje : j = key
      · subst hje
        rw [List.getElem?_set_self hkey] at hj
        cases hj
        rw [hidx0] at hidx
        exact absurd hidx.symm hne
      · rw [List.getElem?_set_ne (fun he => hje he.symm)] at hj
        exact ⟨j, k0, hj, hidx⟩
    · rintro ⟨j, k0, hj, hidx⟩
      by_cases hje : j = key
      · subst hje
        rw [hd0] at hj
        cases hj
        rw [hidx0] at hidx
        exact absurd hidx.symm hne
      · refine ⟨j, k0, ?_, hidx⟩
        rw [List.getElem?_set_ne (fun he => hje he.symm)]
        exact hj
  | none =>
    simp only [insert, hgk, ensureCapacityFor_dense]
    constructor
    · rintro ⟨j, k0, hj, hidx⟩
      by_cases hjlt : j < s.dense.length
      · rw [List.getElem?_append_left hjlt] at hj
        exact ⟨j, k0, hj, hidx⟩
      · have hlen : j < s.dense.length + 1 := by
          by_contra hc
          have : (s.dense ++ [(k, v)]).length ≤ j := by
            simp only [List.length_append, List.length_cons, List.length_nil]
            omega
          rw [List.getElem?_eq_none this] at hj
          cases hj
        have hje : j = s.dense.length := by omega
        subst hje
        rw [List.getElem?_append_right (Nat.le_refl _)] at hj
        simp only [Nat.sub_self, List.getElem?_cons_zero, Option.some_inj] at hj
        have hk0 : k0 = k := (congrArg Prod.fst hj).symm
        rw [hk0] at hidx
        exact absurd hidx.symm hne
    · rintro ⟨j, k0, hj, hidx⟩
      have hjlt : j < s.dense.length := by
        by_contra hc
        rw [List.getElem?_eq_none (Nat.le_of_not_lt hc)] at hj
        cases hj
      refine ⟨j, k0, ?_, hidx⟩
      rw [List.getElem?_append_left hjlt]
      exact hj

theorem insert_flag {s : SpSet κ τ} (hs : s.Inv) (k : κ) (v : τ) :
    (s.insert k v).2 = !(s.get k).isSome := by
  cases hgk : s.getKey (SpIdx.idx k) with
  | some key =>
    obtain ⟨kv0, hd0, _⟩ := (getKey_char hs).mp hgk
    have hg : s.get k = some kv0.2 := by
      unfold get
      simp [hgk, hd0]
    simp [insert, hgk, hd0, hg]
  | none =>
    have hg : s.get k = none := by
      unfold get
      simp [hgk]
    simp [insert, hgk, hg]

theorem containsKey_insert {s : SpSet κ τ} (hs : s.Inv) (k k2 : κ) (v : τ) :
    (s.insert k v).1.containsKey k2 =
      (SpIdx.idx k2 = SpIdx.idx k || s.containsKey k2) := by
  by_cases hne : SpIdx.idx k2 = SpIdx.idx k
  · have hget : (s.insert k v).1.get k2 = some v := by
      have h1 := get_insert_self hs k v
      have hs2 := inv_insert hs k v
      apply (get_char hs2).mpr
      obtain ⟨j, k0, hj, hidx⟩ := (get_char hs2).mp h1
      exact ⟨j, k0, hj, by rw [hidx, hne]⟩
    simp [containsKey, hget, hne]
  · rw [containsKey, get_insert_ne hs v hne]
    simp [containsKey, hne]

/-! ### Effect of `setValueAt` -/

theorem setValueAt_getKey (s : SpSet κ τ) (k : κ) (v : τ) (i : Nat) :
    (s.setValueAt k v).getKey i = s.getKey i := by
  cases hgk : s.getKey (SpIdx.idx k) with
  | some j =>
    cases hd : s.dense[j]? with
    | some kv =>
      simp only [setValueAt, hgk, hd]
      unfold getKey
      simp only
      congr 1
      funext keyIndex
      by_cases hje : keyIndex = j
      · subst hje
        have hk : keyIndex < s.dense.length := by
          by_contra hc
          rw [List.getElem?_eq_none (Nat.le_of_not_lt hc)] at hd
          cases hd
        rw [List.getElem?_set_self hk, hd]
        simp
      · rw [List.getElem?_set_ne (fun he => hje he.symm)]
    | none => simp only [setValueAt, hgk, hd]
  | none => simp only [setValueAt, hgk]

theorem inv_setValueAt {s : SpSet κ τ} (hs : s.Inv) (k : κ) (v : τ) :
    (s.setValueAt k v).Inv := by
  cases hgk : s.getKey (SpIdx.idx k) with
  | some key =>
    obtain ⟨kv0, hd0, _⟩ := (getKey_char hs).mp hgk
    simp only [setValueAt, hgk, hd0]
    intro j kv2 hj
    simp only at hj
    have hkey : key < s.dense.length := by
      by_contra hc
      rw [List.getElem?_eq_none (Nat.le_of_not_lt hc)] at hd0
      cases hd0
    by_cases hje : j = key
    · subst hje
      rw [List.getElem?_set_self hkey] at hj
      cases hj
      simpa using hs j kv0 hd0
    · rw [List.getElem?_set_ne (fun he => hje he.symm)] at hj
      exact hs j kv2 hj
  | none =>
    simp only [setValueAt, hgk]
    exact hs

theorem get_setValueAt_self {s : SpSet κ τ} (hs : s.Inv) {k : κ} {v0 : τ} (v : τ)
    (hget : s.get k = some v0) : (s.setValueAt k v).get k = some v := by
  obtain ⟨j, k0, hj, hidx⟩ := (get_char hs).mp hget
  have hgk : s.getKey (SpIdx.idx k) = some j := (getKey_char hs).mpr ⟨(k0, v0), hj, hidx⟩
  have hjlt : j < s.dense.length := by
    by_contra hc
    rw [List.getElem?_eq_none (Nat.le_of_not_lt hc)] at hj
    cases hj
  unfold get
  rw [setValueAt_getKey, hgk]
  simp only [setValueAt, hgk, hj, Option.some_bind]
  rw [List.getElem?_set_self hjlt]
  rfl

theorem get_setValueAt_ne {s : SpSet κ τ} (hs : s.Inv) {k k2 : κ} (v : τ)
    (hne : SpIdx.idx k2 ≠ SpIdx.idx k) :
    (s.setValueAt k v).get k2 = s.get k2 := by
  unfold get
  rw [setValueAt_getKey]
  cases hgk2 : s.getKey (SpIdx.idx k2) with
  | none => simp [hgk2]
  | some j2 =>
    obtain ⟨kv2, hd2, hidx2⟩ := (getKey_char hs).mp hgk2
    simp only [hgk2, Option.some_bind]
    congr 1
    cases hgk : s.getKey (SpIdx.idx k) with
    | some j =>
      obtain ⟨kv0, hd0, hidx0⟩ := (getKey_char hs).mp hgk
      simp only [setValueAt, hgk, hd0]
      have hje : j2 ≠ j := by
        intro he
        subst he
        rw [hd2] at hd0
        cases hd0
        rw [hidx0] at hidx2
        exact hne hidx2.symm
      rw [List.getElem?_set_ne (fun he => hje he.symm)]
    | none => simp only [setValueAt, hgk]

/-! ### Effect of `remove` -/

theorem remove_absent {s : SpSet κ τ} {k : κ} (hget : s.get k = none) :
    s.remove k = (s, false) := by
  unfold remove
  rw [hget]
  simp

/-- Shape of the dense vector after a successful removal: the entry for `k`
(at position `ia`) is gone, the former last entry now sits at `ia`. -/
theorem remove_dense_get {s : SpSet κ τ} (hs : s.Inv) {k : κ} {v0 : τ}
    (hget : s.get k = some v0) :
    ∃ ia kv oldEntry,
      s.dense[ia]? = some kv ∧ SpIdx.idx kv.1 = SpIdx.idx k ∧
      s.dense[s.dense.length - 1]? = some oldEntry ∧
      (s.remove k).1.sparse = s.sparse.set (SpIdx.idx oldEntry.1) ia ∧
      (s.remove k).2 = true ∧
      (∀ j : Nat, j < s.dense.length - 1 →
        (s.remove k).1.dense[j]? =
          (if j = ia then some oldEntry else s.dense[j]?)) ∧
      (∀ j : Nat, s.dense.length - 1 ≤ j → (s.remove k).1.dense[j]? = none) := by
  obtain ⟨ia, k0, hd, hidx⟩ := (get_char hs).mp hget
  have hialt : ia < s.dense.length := by
    by_contra hc
    rw [List.getElem?_eq_none (Nat.le_of_not_lt hc)] at hd
    cases hd
  have hnlt : s.dense.length - 1 < s.dense.length := by omega
  have hdn : s.dense[s.dense.length - 1]? = some (s.dense.get ⟨s.dense.length - 1, hnlt⟩) := by
    rw [List.getElem?_eq_getElem hnlt]
    rfl
  set n := s.dense.length - 1 with hn
  set oldEntry := s.dense.get ⟨n, hnlt⟩ with hoe
  have hsp : s.sparse[SpIdx.idx k]? = some ia := by
    have := hs ia (k0, v0) hd
    rw [hidx] at this
    exact this
  have hgetd : s.sparse.getD (SpIdx.idx k) 0 = ia := by
    rw [List.getD_eq_getElem?_getD, hsp]
    rfl
  have hisSome : (s.get k).isSome := by rw [hget]; rfl
  refine ⟨ia, (k0, v0), oldEntry, hd, hidx, hdn, ?_, ?_, ?_, ?_⟩
  · unfold remove
    rw [if_pos hisSome]
    simp only [← hn, hgetd, hdn]
  · unfold remove
    rw [if_pos hisSome]
    simp only [← hn, hgetd, hdn]
  · intro j hj
    unfold remove
    rw [if_pos hisSome]
    simp only [← hn, hgetd, hdn]
    unfold listSwap
    rw [hd, hdn]
    simp only
    have hlen2 : ((s.dense.set ia oldEntry).set n (k0, v0)).length = s.dense.length := by
      simp
    rw [List.getElem?_dropLast]
    rw [hlen2]
    rw [if_pos (by omega)]
    have hjn : j ≠ n := by omega
    rw [List.getElem?_set_ne (fun he => hjn he.symm)]
    by_cases hji : j = ia
    · subst hji
      rw [List.getElem?_set_self hialt]
      rw [if_pos rfl]
    · rw [List.getElem?_set_ne (fun he => hji he.symm)]
      rw [if_neg hji]
  · intro j hj
    unfold remove
    rw [if_pos hisSome]
    simp only [← hn, hgetd, hdn]
    unfold listSwap
    rw [hd, hdn]
    simp only
    rw [List.getElem?_dropLast]
    have hlen2 : ((s.dense.set ia oldEntry).set n (k0, v0)).length = s.dense.length := by
      simp
    rw [hlen2]
    rw [if_neg (by omega)]

theorem inv_remove {s : SpSet κ τ} (hs : s.Inv) (k : κ) :
    (s.remove k).1.Inv := by
  cases hget : s.get k with
  | none => rw [remove_absent hget]; exact hs
  | some v0 =>
    obtain ⟨ia, kv, oldEntry, hd, hidx, hdn, hsparse, _, hlo, hhi⟩ :=
      remove_dense_get hs hget
    intro j kv2 hj
    by_cases hjn : j < s.dense.length - 1
    · rw [hlo j hjn] at hj
      rw [hsparse]
      by_cases hji : j = ia
      · subst hji
        rw [if_pos rfl] at hj
        cases hj
        have hoidx : SpIdx.idx oldEntry.1 < s.sparse.length := by
          have := hs (s.dense.length - 1) oldEntry hdn
          by_contra hc
          rw [List.getElem?_eq_none (Nat.le_of_not_lt hc)] at this
          cases this
        rw [List.getElem?_set_self hoidx]
      · rw [if_neg hji] at hj
        have hspj := hs j kv2 hj
        have hne : SpIdx.idx kv2.1 ≠ SpIdx.idx oldEntry.1 := by
          intro he
          have := inv_keys_distinct hs hj hdn he
          omega
        rw [List.getElem?_set_ne (fun he => hne he.symm)]
        exact hspj
    · rw [hhi j (Nat.le_of_not_lt hjn)] at hj
      cases hj

theorem get_remove_self {s : SpSet κ τ} (hs : s.Inv) (k : κ) :
    (s.remove k).1.get k = none := by
  cases hget : s.get k with
  | none => rw [remove_absent hget]; exact hget
  | some v0 =>
    obtain ⟨ia, kv, oldEntry, hd, hidx, hdn, _, _, hlo, hhi⟩ :=
      remove_dense_get hs hget
    apply (get_none_char (inv_remove hs k)).mpr
    intro j kv2 hj hne
    by_cases hjn : j < s.dense.length - 1
    · rw [hlo j hjn] at hj
      by_cases hji : j = ia
      · subst hji
        rw [if_pos rfl] at hj
        cases hj
        rw [← hidx] at hne
        have := inv_keys_distinct hs hdn hd hne
        omega
      · rw [if_neg hji] at hj
        rw [← hidx] at hne
        exact hji (inv_keys_distinct hs hj hd hne)
    · rw [hhi j (Nat.le_of_not_lt hjn)] at hj
      cases hj

theorem get_remove_ne {s : SpSet κ τ} (hs : s.Inv) {k k2 : κ}
    (hne : SpIdx.idx k2 ≠ SpIdx.idx k) :
    (s.remove k).1.get k2 = s.get k2 := by
  cases hget : s.get k with
  | none => rw [remove_absent hget]
  | some v0 =>
    obtain ⟨ia, kv, oldEntry, hd, hidx, hdn, _, _, hlo, hhi⟩ :=
      remove_dense_get hs hget
    have hkv : kv = (kv.1, v0) := by
      have : s.get k = some kv.2 := (get_char hs).mpr ⟨ia, kv.1, by rw [← hd], hidx⟩
      rw [hget] at this
      cases this
      rfl
    apply optionEqOfSomeIff
    intro w
    rw [get_char (inv_remove hs k), get_char hs]
    constructor
    · rintro ⟨j, j0, hj, hjidx⟩
      by_cases hjn : j < s.dense.length - 1
      · rw [hlo j hjn] at hj
        by_cases hji : j = ia
        · subst hji
          rw [if_pos rfl] at hj
          exact ⟨s.dense.length - 1, j0, by rw [hdn, hj], hjidx⟩
        · rw [if_neg hji] at hj
          exact ⟨j, j0, hj, hjidx⟩
      · rw [hhi j (Nat.le_of_not_lt hjn)] at hj
        cases hj
    · rintro ⟨j, j0, hj, hjidx⟩
      have hjlen : j < s.dense.length := by
        by_contra hc
        rw [List.getElem?_eq_none (Nat.le_of_not_lt hc)] at hj
        cases hj
      have hji : j ≠ ia := by
        intro he
        subst he
        rw [hd] at hj
        cases hj
        rw [hidx] at hjidx
        exact hne hjidx.symm
      by_cases hjn : j = s.dense.length - 1
      · subst hjn
        have hialt : ia < s.dense.length - 1 := by
          have hialt0 : ia < s.dense.length := by
            by_contra hc
            rw [List.getElem?_eq_none (Nat.le_of_not_lt hc)] at hd
            cases hd
          omega
        refine ⟨ia, j0, ?_, hjidx⟩
        rw [hlo ia hialt, if_pos rfl, hdn] at *
        rw [hdn] at hj
        cases hj
        rfl
      · have hjlt : j < s.dense.length - 1 := by omega
        refine ⟨j, j0, ?_, hjidx⟩
        rw [hlo j hjlt, if_neg hji]
        exact hj

theorem remove_flag {s : SpSet κ τ} (hs : s.Inv) (k : κ) :
    (s.remove k).2 = (s.get k).isSome := by
  cases hget : s.get k with
  | none => rw [remove_absent hget]; rfl
  | some v0 =>
    obtain ⟨_, _, _, _, _, _, _, hflag, _, _⟩ := remove_dense_get hs hget
    rw [hflag]
    rfl

theorem setValueAt_absent {s : SpSet κ τ} (hs : s.Inv) {k : κ} (v : τ)
    (hget : s.get k = none) : s.setValueAt k v = s := by
  cases hgk : s.getKey (SpIdx.idx k) with
  | some j =>
    exfalso
    unfold get at hget
    obtain ⟨kv, hd, _⟩ := (getKey_char hs).mp hgk
    simp [hgk, hd] at hget
  | none => simp only [setValueAt, hgk]

/-! ### Effect of `iter_mut` (mapping all stored values) -/

/-- The `iter_mut().for_each(...)` pattern: rewrite every stored value in
place. -/
def mapValues (s : SpSet κ τ) (f : τ → τ) : SpSet κ τ :=
  { s with dense := s.dense.map (fun kv => (kv.1, f kv.2)) }

theorem inv_mapValues {s : SpSet κ τ} (hs : s.Inv) (f : τ → τ) :
    (s.mapValues f).Inv := by
  intro j kv hj
  simp only [mapValues, List.getElem?_map] at hj
  cases hd : s.dense[j]? with
  | none => rw [hd] at hj; cases hj
  | some kv0 =>
    rw [hd] at hj
    simp at hj
    cases hj
    simpa using hs j kv0 hd

theorem get_mapValues {s : SpSet κ τ} (hs : s.Inv) (f : τ → τ) (k : κ) :
    (s.mapValues f).get k = (s.get k).map f := by
  unfold get
  have hgk : (s.mapValues f).getKey (SpIdx.idx k) = s.getKey (SpIdx.idx k) := by
    unfold getKey mapValues
    simp only
    congr 1
    funext keyIndex
    rw [List.getElem?_map]
    cases hd : s.dense[keyIndex]? with
    | none => rfl
    | some kv => rfl
  rw [hgk]
  cases hk : s.getKey (SpIdx.idx k) with
  | none => rfl
  | some j =>
    simp only [Option.some_bind, mapValues, List.getElem?_map]
    cases hd : s.dense[j]? with
    | none => rfl
    | some kv => rfl

end SpSet

/-! ## The archetype hash (src/src/archetype.rs, `ArchetypeManager::archetype_of`)

`archetype_of` feeds the `ComponentId`s in the sparse set's iteration order
(= `dense` insertion order) into `std::hash::DefaultHasher` and uses the
64-bit result as the `ArchetypeId`.  `DefaultHasher` is SipHash-1-3 with both
keys zero; a `ComponentId` (a newtype around a `usize`) contributes one
8-byte little-endian word on the 64-bit targets the crate supports.  The
embedding below is that exact function on `Nat` modulo `2^64`. -/

def w64 : Nat := 18446744073709551616

def wadd (a b : Nat) : Nat := (a + b) % w64

def rotl64 (x r : Nat) : Nat := ((x <<< r) % w64) ||| (x >>> (64 - r))

structure SipState where
  v0 : Nat
  v1 : Nat
  v2 : Nat
  v3 : Nat
  deriving DecidableEq, Repr

def sipRound (s : SipState) : SipState :=
  let v0 := wadd s.v0 s.v1
  let v1 := rotl64 s.v1 13
  let v1 := v1 ^^^ v0
  let v0 := rotl64 v0 32
  let v2 := wadd s.v2 s.v3
  let v3 := rotl64 s.v3 16
  let v3 := v3 ^^^ v2
  let v0 := wadd v0 v3
  let v3 := rotl64 v3 21
  let v3 := v3 ^^^ v0
  let v2 := wadd v2 v1
  let v1 := rotl64 v1 17
  let v1 := v1 ^^^ v2
  let v2 := rotl64 v2 32
  ⟨v0, v1, v2, v3⟩

/-- SipHash-1-3 initial state for keys `(0, 0)` (`DefaultHasher::new`). -/
def sipInit : SipState :=
  ⟨0x736f6d6570736575, 0x646f72616e646f6d, 0x6c7967656e657261, 0x7465646279746573⟩

/-- Absorb one complete 8-byte word (one compression round in SipHash-1-3). -/
def sipWord (s : SipState) (m : Nat) : SipState :=
  let s := { s with v3 := s.v3 ^^^ m }
  let s := sipRound s
  { s with v0 := s.v0 ^^^ m }

/-- `Hasher::finish` for a message of `count` whole 8-byte words and no tail
bytes: `b = (len mod 256) << 56`, one compression round, `v2 ^= 0xff`,
three finalization rounds, XOR of the four lanes. -/
def sipFinish (s : SipState) (count : Nat) : Nat :=
  let b := ((8 * count) % 256) <<< 56
  let s := { s with v3 := s.v3 ^^^ b }
  let s := sipRound s
  let s := { s with v0 := s.v0 ^^^ b }
  let s := { s with v2 := s.v2 ^^^ 0xff }
  let s := sipRound (sipRound (sipRound s))
  s.v0 ^^^ s.v1 ^^^ s.v2 ^^^ s.v3

/-- Hash of a sequence of `ComponentId`s, exactly as
`ArchetypeManager::archetype_of` computes it. -/
def sipHashIds (ids : List Nat) : Nat :=
  sipFinish (ids.foldl sipWord sipInit) ids.length

/-! ## Archetypes and the archetype manager (src/src/archetype.rs) -/

/-- An `Archetype`: its component-id set (a `HashSet<ComponentId>`, collected
from the distinct dense keys of the defining sparse set) and the entities
currently associated with it. -/
structure Archetype where
  components : List Nat
  entities : SpSet (Nat × Nat) Unit
  deriving DecidableEq, Repr

/-- `Archetype::includes_fully`: every component of `other` is contained in
`self`'s component set. -/
def includesFully (selfA other : Archetype) : Bool :=
  other.components.all (fun c => selfA.components.contains c)

/-- The `HashMap<ArchetypeId, Archetype>` of the manager, as an association
list (`entry().or_insert_with` appends only when the id is absent). -/
abbrev ArchMap : Type := List (Nat × Archetype)

def mgrGet (m : ArchMap) (id : Nat) : Option Archetype :=
  match m with
  | [] => none
  | (i, a) :: rest => if i = id then some a else mgrGet rest id

/-- Modify the archetype stored under `id` (the `get_archetype_mut` uses:
only the `entities` field is ever touched). -/
def mgrUpdate (m : ArchMap) (id : Nat) (f : Archetype → Archetype) : ArchMap :=
  match m with
  | [] => []
  | (i, a) :: rest =>
    if i = id then (i, f a) :: rest else (i, a) :: mgrUpdate rest id f

/-- `ArchetypeManager::archetype_of`: hash the id sequence, lazily create the
archetype, return the id. -/
def archetypeOf {τ : Type} (m : ArchMap) (ids : SpSet Nat τ) : Nat × ArchMap :=
  let id := sipHashIds ids.keySeq
  match mgrGet m id with
  | some _ => (id, m)
  | none => (id, m ++ [(id, ⟨ids.keySeq, SpSet.empty⟩)])

theorem mgrGet_append_single (m : ArchMap) (id : Nat) (a : Archetype) (id0 : Nat) :
    mgrGet (m ++ [(id, a)]) id0 =
      match mgrGet m id0 with
      | some b => some b
      | none => if id = id0 then some a else none := by
  induction m with
  | nil => simp [mgrGet]
  | cons hd tl ih =>
    obtain ⟨i, b⟩ := hd
    rw [List.cons_append]
    unfold mgrGet
    by_cases hi : i = id0
    · rw [if_pos hi, if_pos hi]
    · rw [if_neg hi, if_neg hi]
      exact ih

theorem mgrGet_archetypeOf_self {τ : Type} (m : ArchMap) (ids : SpSet Nat τ) :
    ∃ a, mgrGet (archetypeOf m ids).2 (archetypeOf m ids).1 = some a := by
  cases hg : mgrGet m (sipHashIds ids.keySeq) with
  | some a =>
    refine ⟨a, ?_⟩
    simp only [archetypeOf, hg]
  | none =>
    refine ⟨⟨ids.keySeq, SpSet.empty⟩, ?_⟩
    simp only [archetypeOf, hg]
    rw [mgrGet_append_single, hg, if_pos rfl]

/-- The manager only ever gains entries, and an existing entry's value never
changes (`or_insert_with` keeps the first value). -/
theorem mgrGet_archetypeOf_mono {τ : Type} (m : ArchMap) (ids : SpSet Nat τ)
    {id0 : Nat} {a : Archetype} (h : mgrGet m id0 = some a) :
    mgrGet (archetypeOf m ids).2 id0 = some a := by
  cases hg : mgrGet m (sipHashIds ids.keySeq) with
  | some _ =>
    simp only [archetypeOf, hg]
    exact h
  | none =>
    simp only [archetypeOf, hg]
    rw [mgrGet_append_single, h]

theorem mgrGet_archetypeOf_none {τ : Type} (m : ArchMap) (ids : SpSet Nat τ)
    {id0 : Nat} (h : mgrGet (archetypeOf m ids).2 id0 = none) :
    mgrGet m id0 = none := by
  cases hg : mgrGet m id0 with
  | none => rfl
  | some a => rw [mgrGet_archetypeOf_mono m ids hg] at h; cases h

/-- `mgrUpdate` preserves presence and the `components` field of every
entry (it only rewrites `entities`). -/
theorem mgrGet_mgrUpdate_components (m : ArchMap) (id : Nat)
    (f : Archetype → Archetype) (hf : ∀ a, (f a).components = a.components)
    (id0 : Nat) :
    (mgrGet (mgrUpdate m id f) id0).map Archetype.components =
      (mgrGet m id0).map Archetype.components := by
  induction m with
  | nil => rfl
  | cons hd tl ih =>
    obtain ⟨i, a⟩ := hd
    unfold mgrUpdate
    by_cases hi : i = id
    · rw [if_pos hi]
      unfold mgrGet
      by_cases hi0 : i = id0
      · rw [if_pos hi0, if_pos hi0]
        simp [hf]
      · rw [if_neg hi0, if_neg hi0]
    · rw [if_neg hi]
      unfold mgrGet
      by_cases hi0 : i = id0
      · rw [if_pos hi0, if_pos hi0]
      · rw [if_neg hi0, if_neg hi0]
        exact ih

theorem mgrGet_mgrUpdate_isSome (m : ArchMap) (id : Nat)
    (f : Archetype → Archetype) (id0 : Nat) :
    (mgrGet (mgrUpdate m id f) id0).isSome = (mgrGet m id0).isSome := by
  induction m with
  | nil => rfl
  | cons hd tl ih =>
    obtain ⟨i, a⟩ := hd
    unfold mgrUpdate
    by_cases hi : i = id
    · rw [if_pos hi]
      unfold mgrGet
      by_cases hi0 : i = id0
      · rw [if_pos hi0, if_pos hi0]
        rfl
      · rw [if_neg hi0, if_neg hi0]
    · rw [if_neg hi]
      unfold mgrGet
      by_cases hi0 : i = id0
      · rw [if_pos hi0, if_pos hi0]
      · rw [if_neg hi0, if_neg hi0]
        exact ih

/-! ## Access modes and query component sets (src/src/query.rs) -/

inductive AccessMode
  | read
  | write
  deriving DecidableEq, Repr

/-- An `Entity` handle: (index, generation), both `u32`. -/
abbrev Entity : Type := Nat × Nat

/-- `u32` wrap-around modulus (generation counters, entity indices). -/
def u32Mod : Nat := 4294967296

/-- A query fetch term: `Entity`, `&T` or `&mut T`, with the type replaced
by its registered `ComponentId`. -/
inductive QTerm
  | entity
  | readC (cid : Nat)
  | writeC (cid : Nat)
  deriving DecidableEq, Repr

def QTerm.tcid : QTerm → Option Nat
  | .entity => none
  | .readC c => some c
  | .writeC c => some c

/-- The component ids mentioned by the component terms of a query. -/
def termCids (terms : List QTerm) : List Nat := terms.filterMap QTerm.tcid

/-- `QueryParam::compute_component_set` for one fetch term: `Entity`
contributes nothing; `&T` inserts `(cid, Read)` and `&mut T` inserts
`(cid, Write)`, panicking (`none`) when `insert` reports the id as already
present ("Query accesses twice the same component type!"). -/
def termComputeSet (cs : SpSet Nat AccessMode) : QTerm → Option (SpSet Nat AccessMode)
  | .entity => some cs
  | .readC c =>
    let r := cs.insert c AccessMode.read
    if r.2 then some r.1 else none
  | .writeC c =>
    let r := cs.insert c AccessMode.write
    if r.2 then some r.1 else none

/-- `QueryParam::compute_component_set` for a tuple of fetch terms
(sequential composition). -/
def computeComponentSet (terms : List QTerm) (cs : SpSet Nat AccessMode) :
    Option (SpSet Nat AccessMode) :=
  match terms with
  | [] => some cs
  | t :: rest => (termComputeSet cs t).bind (computeComponentSet rest)

/-! ## Erased columns and the table storage (src/src/erased_data_vec.rs,
src/src/storage.rs)

A `Column` models an `ErasedVec` through the operations the storage performs
on it: `ensure_len`, `insert_at`, `drop_at` and reading one slot.  `slots`
has one cell per logical element; `none` stands for an uninitialized (or
already dropped) slot, whose destruction or read is undefined behaviour in
the source and maps to the `none` outcome here.  `dropLog` records, in
order, every value on which the element destructor was run. -/

structure Column where
  slots : List (Option Nat)
  dropLog : List Nat
  deriving DecidableEq, Repr

namespace Column

def clen (c : Column) : Nat := c.slots.length

/-- `ErasedVec::ensure_len` (the source sets `len = new_len`
unconditionally; the storage only ever grows columns). -/
def ensureLen (c : Column) (newLen : Nat) : Column :=
  if newLen ≤ c.slots.length then { c with slots := c.slots.take newLen }
  else { c with slots := c.slots ++ List.replicate (newLen - c.slots.length) none }

/-- `ErasedVec::insert_at`: store at the slot without shifting; panics when
`index >= len`. -/
def insertAt (c : Column) (index : Nat) (v : Nat) : Option Column :=
  if index < c.slots.length then some { c with slots := c.slots.set index (some v) }
  else none

/-- `ErasedVec::drop_at`: run the destructor on the slot; panics when
`index >= len`, undefined when the slot is uninitialized. -/
def dropAt (c : Column) (index : Nat) : Option Column :=
  match c.slots[index]? with
  | some (some v) =>
    some { slots := c.slots.set index none, dropLog := c.dropLog ++ [v] }
  | some none => none
  | none => none

/-- Reading one slot (`get_ptr` + dereference): defined only for an
initialized slot in bounds. -/
def readAt (c : Column) (index : Nat) : Option Nat :=
  (c.slots[index]?).bind id

/-- A fresh column created by `add_entity_component`'s `get_or_insert`
closure: `ErasedVec::new_typed` followed by `ensure_len(num_entities)`. -/
def fresh (numEntities : Nat) : Column :=
  { slots := List.replicate numEntities none, dropLog := [] }

end Column

/-- `TableStorage`: one column per `ComponentId` plus the count of entities
ever registered. -/
structure TableStorage where
  columns : SpSet Nat Column
  numEntities : Nat
  deriving DecidableEq, Repr

namespace TableStorage

def new : TableStorage := ⟨SpSet.empty, 0⟩

/-- `register_new_entity`: bump the count and extend every column. -/
def registerNewEntity (st : TableStorage) : TableStorage :=
  let n := st.numEntities + 1
  { columns := st.columns.mapValues (fun c => c.ensureLen n), numEntities := n }

/-- `add_entity_component`: fetch or create the column, then `insert_at` the
entity's index. -/
def addEntityComponent (st : TableStorage) (e : Entity) (cid : Nat) (v : Nat) :
    Option TableStorage :=
  let col0 := match st.columns.get cid with
    | some c => c
    | none => Column.fresh st.numEntities
  match col0.insertAt e.1 v with
  | some col1 => some { st with columns := (st.columns.insert cid col1).1 }
  | none => none

/-- `erase_entity_component`: `columns.get_mut(..).unwrap()` then `drop_at`
the entity's slot. -/
def eraseEntityComponent (st : TableStorage) (e : Entity) (cid : Nat) :
    Option TableStorage :=
  match st.columns.get cid with
  | none => none
  | some c =>
    (c.dropAt e.1).map fun c1 => { st with columns := (st.columns.insert cid c1).1 }

/-- `StorageType::replace_entity_component` (default method): erase, then
add. -/
def replaceEntityComponent (st : TableStorage) (e : Entity) (cid : Nat) (v : Nat) :
    Option TableStorage :=
  (st.eraseEntityComponent e cid).bind fun st1 => st1.addEntityComponent e cid v

/-- `get_component` at the storage level: the raw slot read. -/
def getComponentRead (st : TableStorage) (e : Entity) (cid : Nat) : Option Nat :=
  (st.columns.get cid).bind fun c => c.readAt e.1

end TableStorage

/-! ## Resources (src/src/resources.rs)

A resource registry maps `ComponentId` to a column of one element.  `value`
is the current slot content; `log` records destructor runs and writes in
program order.  Thread-identity checks (`validate_access`) are identities in
this single-threaded model. -/

inductive REvent
  | dropped (v : Nat)
  | written (v : Nat)
  deriving DecidableEq, Repr

structure ResourceData where
  value : Option Nat
  log : List REvent
  deriving DecidableEq, Repr

abbrev Resources : Type := SpSet Nat ResourceData

/-- `Resources::add`: on a hit run the old destructor (`drop_at(0)`) and
then write the new value in place (`insert_at(0, ..)`); otherwise create a
fresh one-element column holding the value. -/
def resourcesAdd (r : Resources) (id : Nat) (v : Nat) : Option Resources :=
  match r.get id with
  | some old =>
    match old.value with
    | some w =>
      some (r.setValueAt id
        { value := some v, log := old.log ++ [REvent.dropped w, REvent.written v] })
    | none => none
  | none => some ((r.insert id { value := some v, log := [REvent.written v] }).1)

/-- `Resources::get_ptr` followed by the dereference: the stored value. -/
def resourcesGetValue (r : Resources) (id : Nat) : Option Nat :=
  (r.get id).bind fun d => d.value

/-! ## Entities and the allocator (src/src/entity_manager.rs) -/

/-- `EntityInfo`: generation, owned component set, archetype id.
`..Default::default()` gives an empty component set and `ArchetypeId(0)`. -/
structure EntityInfo where
  generation : Nat
  components : SpSet Nat Unit
  archetypeId : Nat
  deriving DecidableEq, Repr

structure EntityAllocator where
  nextEntityId : Nat
  entityInfo : SpSet Entity EntityInfo
  droppedEntities : List Entity
  deriving DecidableEq, Repr

namespace EntityAllocator

def new : EntityAllocator := ⟨0, SpSet.empty, []⟩

/-- `allocate_id`: pop a dropped entity (bumping its generation, `u32`
wrap-around) or mint a fresh index. -/
def allocateId (a : EntityAllocator) : Entity × EntityAllocator :=
  match a.droppedEntities.getLast? with
  | some e =>
    ((e.1, (e.2 + 1) % u32Mod), { a with droppedEntities := a.droppedEntities.dropLast })
  | none =>
    ((a.nextEntityId, 0), { a with nextEntityId := (a.nextEntityId + 1) % u32Mod })

/-- `new_with_id`: assert the index is unregistered (the sparse set is keyed
on the index alone), then insert a default info carrying the id's
generation. -/
def newWithId (a : EntityAllocator) (id : Entity) : Option EntityAllocator :=
  if (a.entityInfo.get id).isSome then none
  else some { a with entityInfo :=
    (a.entityInfo.insert id
      { generation := id.2, components := SpSet.empty, archetypeId := 0 }).1 }

/-- `new_entity` = `allocate_id` + `new_with_id`. -/
def newEntity (a : EntityAllocator) : Option (Entity × EntityAllocator) :=
  let (id, a1) := a.allocateId
  (a1.newWithId id).map fun a2 => (id, a2)

/-- `destroy_entity`: drop the info (index-keyed) and push the handle onto
the free list. -/
def destroyEntity (a : EntityAllocator) (e : Entity) : EntityAllocator :=
  { a with entityInfo := (a.entityInfo.remove e).1,
           droppedEntities := a.droppedEntities ++ [e] }

/-- `entity_info`: the lookup filters on a matching generation — stale
handles miss. -/
def infoGet (a : EntityAllocator) (id : Entity) : Option EntityInfo :=
  (a.entityInfo.get id).bind fun info =>
    if info.generation = id.2 then some info else none

/-- Mutation through `entity_info_mut` (callers have already checked the
generation): overwrite the stored info in place. -/
def setInfo (a : EntityAllocator) (e : Entity) (info : EntityInfo) : EntityAllocator :=
  { a with entityInfo := a.entityInfo.setValueAt e info }

end EntityAllocator

/-! ## The world container (src/src/world_container.rs)

The registrar is modelled as the list of `ComponentId`s registered so far;
`get_or_create_component_id::<T>` appends on first sight.  Operations take
the component id standing for the Rust type parameter. -/

structure WorldContainer where
  storage : TableStorage
  registrar : List Nat
  entityManager : EntityAllocator
  archetypeManager : ArchMap
  sendResources : Resources
  nonSendResources : Resources
  resourceSendness : SpSet Nat Bool
  deriving DecidableEq, Repr

namespace WorldContainer

def new : WorldContainer :=
  ⟨TableStorage.new, [], EntityAllocator.new, [], SpSet.empty, SpSet.empty, SpSet.empty⟩

/-- `TypeRegistrar::get_registration`. -/
def registerCid (reg : List Nat) (cid : Nat) : List Nat :=
  if reg.contains cid then reg else reg ++ [cid]

/-- `new_entity`: allocator `new_entity` + `storage.register_new_entity`. -/
def newEntity (w : WorldContainer) : Option (Entity × WorldContainer) :=
  (w.entityManager.newEntity).map fun p =>
    (p.1, { w with entityManager := p.2, storage := w.storage.registerNewEntity })

/-- First half of `update_entity_archetype`: remove the entity from its old
archetype's entity set, when that archetype exists. -/
def amAfterRemove (w : WorldContainer) (e : Entity) (info : EntityInfo) : ArchMap :=
  match mgrGet w.archetypeManager info.archetypeId with
  | some _ =>
    mgrUpdate w.archetypeManager info.archetypeId
      (fun a => { a with entities := (a.entities.remove e).1 })
  | none => w.archetypeManager

/-- Second half of `update_entity_archetype`, after
`archetype_of(&entity_info.components)` produced `p`: store the new id in
the entity's info and insert the entity into the new archetype's entity set
(whose presence the source `unwrap`s). -/
def updateArchetypeGo (w : WorldContainer) (e : Entity) (info : EntityInfo)
    (p : Nat × ArchMap) : Option WorldContainer :=
  match mgrGet p.2 p.1 with
  | none => none
  | some _ =>
    some { w with
      archetypeManager :=
        mgrUpdate p.2 p.1 (fun a => { a with entities := (a.entities.insert e ()).1 }),
      entityManager := w.entityManager.setInfo e { info with archetypeId := p.1 } }

/-- `update_entity_archetype`: move the entity from its old archetype's
entity set to the archetype of its current component set, updating
`archetype_id`. -/
def updateEntityArchetype (w : WorldContainer) (e : Entity) : Option WorldContainer :=
  match w.entityManager.infoGet e with
  | none => none
  | some info =>
    updateArchetypeGo w e info (archetypeOf (amAfterRemove w e info) info.components)

/-- The world state in `add_component`'s fresh branch right after
`entity_info.components.insert(component_id, ())`, with the id registered. -/
def addComponentFresh (w : WorldContainer) (e : Entity) (cid : Nat)
    (info : EntityInfo) : WorldContainer :=
  { w with registrar := registerCid w.registrar cid,
           entityManager := w.entityManager.setInfo e
             { info with components := (info.components.insert cid ()).1 } }

/-- `add_component`: register the id; on a present component replace in
storage and return; otherwise extend the component set, update the
archetype, then add to storage. -/
def addComponent (w : WorldContainer) (e : Entity) (cid : Nat) (v : Nat) :
    Option WorldContainer :=
  match w.entityManager.infoGet e with
  | none => none
  | some info =>
    if (info.components.get cid).isSome then
      (w.storage.replaceEntityComponent e cid v).map fun st =>
        { w with registrar := registerCid w.registrar cid, storage := st }
    else
      ((addComponentFresh w e cid info).updateEntityArchetype e).bind fun w2 =>
        (w2.storage.addEntityComponent e cid v).map fun st => { w2 with storage := st }

/-- `remove_component_untyped`: erase from storage and from the entity's
component set when present, else a no-op. -/
def removeComponentUntyped (e : Entity) (info : EntityInfo) (cid : Nat)
    (st : TableStorage) : Option (EntityInfo × TableStorage) :=
  if (info.components.get cid).isSome then
    (st.eraseEntityComponent e cid).map fun st1 =>
      ({ info with components := (info.components.remove cid).1 }, st1)
  else some (info, st)

/-- `remove_component`: register the id; on a live entity run the untyped
removal and update the archetype. -/
def removeComponent (w : WorldContainer) (e : Entity) (cid : Nat) :
    Option WorldContainer :=
  let reg := registerCid w.registrar cid
  match w.entityManager.infoGet e with
  | none => some { w with registrar := reg }
  | some info =>
    (removeComponentUntyped e info cid w.storage).bind fun p =>
      ({ w with registrar := reg, storage := p.2,
                entityManager := w.entityManager.setInfo e p.1 }).updateEntityArchetype e

/-- `remove_entity`: on a live entity erase every component, then release
the info and push the handle onto the free list. -/
def removeEntity (w : WorldContainer) (e : Entity) : Option WorldContainer :=
  match w.entityManager.infoGet e with
  | none => some w
  | some info =>
    let comps := info.components.keySeq
    let folded := comps.foldlM
      (fun (p : EntityInfo × TableStorage) c => removeComponentUntyped e p.1 c p.2)
      (info, w.storage)
    folded.map fun p =>
      { w with storage := p.2,
               entityManager := ((w.entityManager.setInfo e p.1).destroyEntity e) }

/-- `get_component`: `None` when the type is unregistered, the entity is
dead or stale, or the entity lacks the component; otherwise the stored
value. -/
def getComponent (w : WorldContainer) (e : Entity) (cid : Nat) : Option Nat :=
  if w.registrar.contains cid then
    match w.entityManager.infoGet e with
    | some info =>
      if (info.components.get cid).isSome then w.storage.getComponentRead e cid
      else none
    | none => none
  else none

/-- `add_resource` (`Send` registry). -/
def addResource (w : WorldContainer) (cid : Nat) (v : Nat) : Option WorldContainer :=
  let reg := registerCid w.registrar cid
  (resourcesAdd w.sendResources cid v).map fun sr =>
    { w with registrar := reg,
             resourceSendness := (w.resourceSendness.insert cid true).1,
             sendResources := sr }

/-- `add_non_send_resource`. -/
def addNonSendResource (w : WorldContainer) (cid : Nat) (v : Nat) : Option WorldContainer :=
  let reg := registerCid w.registrar cid
  (resourcesAdd w.nonSendResources cid v).map fun nr =>
    { w with registrar := reg,
             resourceSendness := (w.resourceSendness.insert cid false).1,
             nonSendResources := nr }

/-- `get_resource`: `Ok none` when the type was never registered; otherwise
the sendness record is `.unwrap()`ed — `Except.error` models that panic —
and the matching registry is consulted. -/
def getResource (w : WorldContainer) (cid : Nat) : Except Unit (Option Nat) :=
  if w.registrar.contains cid then
    match w.resourceSendness.get cid with
    | none => Except.error ()
    | some true => Except.ok (resourcesGetValue w.sendResources cid)
    | some false => Except.ok (resourcesGetValue w.nonSendResources cid)
  else Except.ok none

end WorldContainer

/-! ## Small helper lemmas -/

@[simp]
theorem spIdx_nat (n : Nat) : SpIdx.idx n = n := rfl

@[simp]
theorem spIdx_entity (e : Entity) : SpIdx.idx e = e.1 := rfl

/-- `SparseSet` lookups depend on the key's index form only. -/
theorem SpSet.get_congrIdx {κ τ : Type} [SpIdx κ] (s : SpSet κ τ) {k1 k2 : κ}
    (h : SpIdx.idx k1 = SpIdx.idx k2) : s.get k1 = s.get k2 := by
  unfold SpSet.get
  rw [h]

/-- A wrapped `u32` increment never reproduces the old generation. -/
theorem succ_mod_u32_ne (g : Nat) : (g + 1) % u32Mod ≠ g := by
  intro he
  by_cases hlt : g + 1 < u32Mod
  · rw [Nat.mod_eq_of_lt hlt] at he
    omega
  · have h2 : (g + 1) % u32Mod < u32Mod := Nat.mod_lt _ (by decide)
    by_cases hg : g ≥ u32Mod
    · omega
    · have hge : g + 1 = u32Mod := by omega
      rw [hge, Nat.mod_self] at he
      have : u32Mod = 1 := by omega
      exact absurd this (by decide)

theorem registerCid_contains_self (reg : List Nat) (cid : Nat) :
    (WorldContainer.registerCid reg cid).contains cid = true := by
  unfold WorldContainer.registerCid
  by_cases h : reg.contains cid
  · rw [if_pos h]
    exact h
  · rw [if_neg h]
    simp

theorem registerCid_of_contains {reg : List Nat} {cid : Nat}
    (h : reg.contains cid = true) : WorldContainer.registerCid reg cid = reg := by
  unfold WorldContainer.registerCid
  rw [if_pos h]

theorem registerCid_mem_self (reg : List Nat) (cid : Nat) :
    cid ∈ WorldContainer.registerCid reg cid := by
  unfold WorldContainer.registerCid
  by_cases h : reg.contains cid
  · rw [if_pos h]
    simpa using h
  · rw [if_neg h]
    simp

theorem registerCid_contains_other (reg : List Nat) {cid cid2 : Nat} (h : cid2 ≠ cid) :
    (WorldContainer.registerCid reg cid).contains cid2 = reg.contains cid2 := by
  unfold WorldContainer.registerCid
  by_cases hc : reg.contains cid
  · rw [if_pos hc]
  · rw [if_neg hc]
    simp [h]

/-! ## Claim C3 — archetype ids and insertion order -/

/-- C3 counterexample: two component-id sets with exactly the same elements
(`{0, 1}`), inserted in opposite orders, receive different `ArchetypeId`s
from `archetype_of` (the `DefaultHasher` is fed the dense iteration order,
which is insertion order, and SipHash-1-3 is order-sensitive).  This
refutes the claim as stated. -/
theorem c3_archetype_order_counterexample :
    (((SpSet.empty.insert 0 ()).1.insert 1 ()).1.containsKey 0 = true ∧
     ((SpSet.empty.insert 0 ()).1.insert 1 ()).1.containsKey 1 = true ∧
     ((SpSet.empty.insert 1 ()).1.insert 0 ()).1.containsKey 0 = true ∧
     ((SpSet.empty.insert 1 ()).1.insert 0 ()).1.containsKey 1 = true) ∧
    (archetypeOf [] ((SpSet.empty.insert 0 ()).1.insert 1 ()).1).1 ≠
      (archetypeOf [] ((SpSet.empty.insert 1 ()).1.insert 0 ()).1).1 := by
  decide

theorem archetypeOf_fst {τ : Type} (m : ArchMap) (s : SpSet Nat τ) :
    (archetypeOf m s).1 = sipHashIds s.keySeq := by
  cases hg : mgrGet m (sipHashIds s.keySeq) <;> simp only [archetypeOf, hg]

/-- C3 (amended): `archetype_of` is deterministic in the *iteration
sequence* of the component-id set: whenever two sets enumerate the same id
sequence (same ids inserted in the same order), `archetype_of` returns the
same `ArchetypeId`, independently of either manager's state.  Order
independence for equal sets does not hold (see the counterexample). -/
theorem c3_archetype_of_seq_deterministic {τ1 τ2 : Type} (m1 m2 : ArchMap)
    (s1 : SpSet Nat τ1) (s2 : SpSet Nat τ2) (h : s1.keySeq = s2.keySeq) :
    (archetypeOf m1 s1).1 = (archetypeOf m2 s2).1 := by
  rw [archetypeOf_fst, archetypeOf_fst, h]

theorem c3_archetype_of_seq_deterministic_witness :
    ((SpSet.empty.insert 3 ()).1.keySeq = (SpSet.empty.insert 3 0).1.keySeq) ∧
    (archetypeOf [] (SpSet.empty.insert 3 ()).1).1 =
      (archetypeOf [(5, ⟨[], SpSet.empty⟩)] (SpSet.empty.insert 3 0).1).1 :=
  ⟨by decide, c3_archetype_of_seq_deterministic [] [(5, ⟨[], SpSet.empty⟩)]
    (SpSet.empty.insert 3 ()).1 (SpSet.empty.insert 3 0).1 (by decide)⟩

instance {ε α : Type} [DecidableEq ε] [DecidableEq α] : DecidableEq (Except ε α) := by
  intro a b
  cases a with
  | error ea =>
    cases b with
    | error eb =>
      by_cases h : ea = eb
      · exact isTrue (by rw [h])
      · exact isFalse (by intro hc; cases hc; exact h rfl)
    | ok vb => exact isFalse (by intro hc; cases hc)
  | ok va =>
    cases b with
    | error eb => exact isFalse (by intro hc; cases hc)
    | ok vb =>
      by_cases h : va = vb
      · exact isTrue (by rw [h])
      · exact isFalse (by intro hc; cases hc; exact h rfl)

/-! ## Claim C5 — `get_resource` on an absent resource -/

/-- C5: evaluation at the failing input.  In a fresh world, spawn an entity
and attach a component of type `R` (`ComponentId` 0, value 7) — this
registers `R`'s id without installing any resource.  `get_resource::<R>()`
then panics (`Except.error`) on `resource_sendness.get(&id).unwrap()`
instead of returning the absent sentinel; for a type that was never
registered at all it does return `None`. -/
theorem c5_get_resource_panics_on_registered_component_type :
    ((WorldContainer.new.newEntity).bind
        (fun p => p.2.addComponent p.1 0 7)).map
      (fun w => w.getResource 0) = some (Except.error ()) ∧
    WorldContainer.new.getResource 0 = Except.ok none := by
  decide

/-! ## Claim C6 — destroy, then allocate again -/

/-- C6: from any well-formed allocator state, destroying a live entity `e`
and then allocating again yields the handle `(e.index, e.generation + 1)`
(generation arithmetic is `u32`): it differs from the outstanding handle,
`entity_info` on the old handle now misses (generation filter), and the new
handle resolves. -/
theorem c6_destroy_then_allocate (a : EntityAllocator) (e : Entity) (info : EntityInfo)
    (hinv : a.entityInfo.Inv) (hlive : a.infoGet e = some info) :
    ((a.destroyEntity e).newEntity).map (fun p => p.1) =
      some (e.1, (e.2 + 1) % u32Mod) ∧
    ((a.destroyEntity e).newEntity).map (fun p => decide (p.1 = e)) = some false ∧
    ((a.destroyEntity e).newEntity).bind (fun p => p.2.infoGet e) = none ∧
    ((a.destroyEntity e).newEntity).map (fun p => (p.2.infoGet p.1).isSome) =
      some true := by
  have hinv1 : ((a.entityInfo.remove e).1).Inv := SpSet.inv_remove hinv e
  have hgetid : (a.entityInfo.remove e).1.get ((e.1, (e.2 + 1) % u32Mod) : Entity) = none := by
    rw [SpSet.get_congrIdx _ (by simp :
      SpIdx.idx ((e.1, (e.2 + 1) % u32Mod) : Entity) = SpIdx.idx e)]
    exact SpSet.get_remove_self hinv e
  have hne : (a.destroyEntity e).newEntity =
      some ((e.1, (e.2 + 1) % u32Mod),
        { a with
          entityInfo := ((a.entityInfo.remove e).1.insert ((e.1, (e.2 + 1) % u32Mod) : Entity)
            ⟨(e.2 + 1) % u32Mod, SpSet.empty, 0⟩).1,
          droppedEntities := a.droppedEntities }) := by
    unfold EntityAllocator.destroyEntity EntityAllocator.newEntity
      EntityAllocator.allocateId EntityAllocator.newWithId
    simp only [List.getLast?_concat, List.dropLast_concat, hgetid]
    rfl
  have hinv2 := SpSet.inv_insert hinv1 ((e.1, (e.2 + 1) % u32Mod) : Entity)
    (⟨(e.2 + 1) % u32Mod, SpSet.empty, 0⟩ : EntityInfo)
  refine ⟨by rw [hne]; rfl, ?_, ?_, ?_⟩
  · rw [hne]
    have hnee : ((e.1, (e.2 + 1) % u32Mod) : Entity) ≠ e := by
      intro he
      exact succ_mod_u32_ne e.2 (congrArg Prod.snd he)
    simp [hnee]
  · rw [hne]
    simp only [Option.some_bind]
    unfold EntityAllocator.infoGet
    have hgete : ((a.entityInfo.remove e).1.insert ((e.1, (e.2 + 1) % u32Mod) : Entity)
        ⟨(e.2 + 1) % u32Mod, SpSet.empty, 0⟩).1.get e =
        some ⟨(e.2 + 1) % u32Mod, SpSet.empty, 0⟩ := by
      rw [SpSet.get_congrIdx _ (by simp :
        SpIdx.idx e = SpIdx.idx ((e.1, (e.2 + 1) % u32Mod) : Entity))]
      exact SpSet.get_insert_self hinv1 _ _
    rw [hgete]
    simp only [Option.some_bind]
    rw [if_neg (succ_mod_u32_ne e.2)]
  · rw [hne]
    simp only [Option.map]
    unfold EntityAllocator.infoGet
    rw [SpSet.get_insert_self hinv1 _ _]
    simp

/-- A concrete allocator holding the single live entity `(0, 0)`. -/
def c6wAlloc : EntityAllocator := ⟨1, ⟨[((0, 0), ⟨0, SpSet.empty, 0⟩)], [0]⟩, []⟩

theorem c6_destroy_then_allocate_witness :
    (c6wAlloc.entityInfo.Inv ∧
     c6wAlloc.infoGet (0, 0) = some ⟨0, SpSet.empty, 0⟩) ∧
    (((c6wAlloc.destroyEntity (0, 0)).newEntity).map (fun p => p.1) = some (0, 1) ∧
     ((c6wAlloc.destroyEntity (0, 0)).newEntity).map (fun p => decide (p.1 = (0, 0))) =
       some false ∧
     ((c6wAlloc.destroyEntity (0, 0)).newEntity).bind (fun p => p.2.infoGet (0, 0)) = none ∧
     ((c6wAlloc.destroyEntity (0, 0)).newEntity).map (fun p => (p.2.infoGet p.1).isSome) =
       some true) :=
  ⟨⟨by decide, by decide⟩,
    c6_destroy_then_allocate c6wAlloc (0, 0) ⟨0, SpSet.empty, 0⟩ (by decide) (by decide)⟩

/-! ## Claim C8 — `add_resource` twice for the same type -/

/-- C8: installing resource `v` for a fresh id and then `v2` for the same
id leaves exactly `v2` installed; the one-element column's event log shows
the write of `v`, then exactly one destructor run on `v`, then the write of
`v2` — the old value is dropped exactly once, before the new value is
written. -/
theorem c8_add_resource_replaces_and_drops_once (w : WorldContainer) (cid v v2 : Nat)
    (hinv : w.sendResources.Inv) (hfresh : w.sendResources.get cid = none) :
    ((w.addResource cid v).bind (fun w1 => w1.addResource cid v2)).map
        (fun w2 => (resourcesGetValue w2.sendResources cid,
          (w2.sendResources.get cid).map ResourceData.log)) =
      some (some v2,
        some [REvent.written v, REvent.dropped v, REvent.written v2]) := by
  have h1 : resourcesAdd w.sendResources cid v =
      some ((w.sendResources.insert cid ⟨some v, [REvent.written v]⟩).1) := by
    unfold resourcesAdd
    rw [hfresh]
  have hinv1 := SpSet.inv_insert hinv cid (⟨some v, [REvent.written v]⟩ : ResourceData)
  have hget1 : (w.sendResources.insert cid ⟨some v, [REvent.written v]⟩).1.get cid =
      some ⟨some v, [REvent.written v]⟩ := SpSet.get_insert_self hinv _ _
  have h2 : resourcesAdd (w.sendResources.insert cid ⟨some v, [REvent.written v]⟩).1 cid v2 =
      some ((w.sendResources.insert cid ⟨some v, [REvent.written v]⟩).1.setValueAt cid
        ⟨some v2, [REvent.written v, REvent.dropped v, REvent.written v2]⟩) := by
    unfold resourcesAdd
    rw [hget1]
    rfl
  have hget2 := SpSet.get_setValueAt_self hinv1
    (⟨some v2, [REvent.written v, REvent.dropped v, REvent.written v2]⟩ : ResourceData) hget1
  simp [WorldContainer.addResource, h1, h2, hget2, resourcesGetValue]

/-! ## World-level helper lemmas for component addition and lookup -/

theorem infoGet_elim {a : EntityAllocator} {e : Entity} {info : EntityInfo}
    (h : a.infoGet e = some info) :
    a.entityInfo.get e = some info ∧ info.generation = e.2 := by
  unfold EntityAllocator.infoGet at h
  cases hg : a.entityInfo.get e with
  | none => rw [hg] at h; cases h
  | some i0 =>
    rw [hg] at h
    simp only [Option.some_bind] at h
    by_cases hgen : i0.generation = e.2
    · rw [if_pos hgen] at h
      cases h
      exact ⟨rfl, hgen⟩
    · rw [if_neg hgen] at h
      cases h

theorem infoGet_intro {a : EntityAllocator} {e : Entity} {info : EntityInfo}
    (h1 : a.entityInfo.get e = some info) (h2 : info.generation = e.2) :
    a.infoGet e = some info := by
  unfold EntityAllocator.infoGet
  rw [h1]
  simp [h2]

theorem infoGet_setInfo_self {a : EntityAllocator} {e : Entity} {info : EntityInfo}
    (info2 : EntityInfo) (hinv : a.entityInfo.Inv) (h : a.infoGet e = some info)
    (hgen : info2.generation = e.2) :
    (a.setInfo e info2).infoGet e = some info2 := by
  obtain ⟨hg, _⟩ := infoGet_elim h
  exact infoGet_intro (SpSet.get_setValueAt_self hinv info2 hg) hgen

theorem infoGet_setInfo_ne {a : EntityAllocator} {e e2 : Entity} (info2 : EntityInfo)
    (hinv : a.entityInfo.Inv) (hne : e2.1 ≠ e.1) :
    (a.setInfo e info2).infoGet e2 = a.infoGet e2 := by
  unfold EntityAllocator.infoGet EntityAllocator.setInfo
  rw [SpSet.get_setValueAt_ne hinv info2 (by simpa using hne)]

theorem setInfo_inv {a : EntityAllocator} (e : Entity) (info2 : EntityInfo)
    (hinv : a.entityInfo.Inv) : (a.setInfo e info2).entityInfo.Inv :=
  SpSet.inv_setValueAt hinv e info2

/-- A successful `update_entity_archetype` leaves registrar and storage
untouched, rewrites the entity's `archetype_id` to the hash of its current
component sequence, and touches only the archetype manager otherwise. -/
theorem updateEntityArchetype_shape (w : WorldContainer) (e : Entity) (info : EntityInfo)
    (h : w.entityManager.infoGet e = some info) :
    ∃ am2 : ArchMap, w.updateEntityArchetype e = some
      { w with archetypeManager := am2,
               entityManager := w.entityManager.setInfo e
                 { info with archetypeId := sipHashIds info.components.keySeq } } := by
  have hu : w.updateEntityArchetype e =
      WorldContainer.updateArchetypeGo w e info
        (archetypeOf (WorldContainer.amAfterRemove w e info) info.components) := by
    unfold WorldContainer.updateEntityArchetype
    rw [h]
  rw [hu]
  obtain ⟨a0, ha0⟩ := mgrGet_archetypeOf_self
    (WorldContainer.amAfterRemove w e info) info.components
  unfold WorldContainer.updateArchetypeGo
  rw [ha0]
  rw [archetypeOf_fst]
  exact ⟨_, rfl⟩

/-- From the bounded column-length fact over the dense entries to a fact
about a successful lookup. -/
theorem columns_get_clen {st : TableStorage} (hinv : st.columns.Inv)
    (hlen : ∀ p ∈ st.columns.dense, (p.2 : Column).clen = st.numEntities)
    {cid : Nat} {c : Column} (h : st.columns.get cid = some c) :
    c.clen = st.numEntities := by
  obtain ⟨j, k0, hj, _⟩ := (SpSet.get_char hinv).mp h
  obtain ⟨hlt, he⟩ := List.getElem?_eq_some_iff.mp hj
  have hm : (k0, c) ∈ st.columns.dense := by
    rw [← he]
    exact List.getElem_mem hlt
  exact hlen (k0, c) hm

/-! ## Claim C7 — add a component, then read it back -/

/-- C7: for a live entity of a well-formed world, `add_component(E, v)`
succeeds and an immediate `get_component::<T>(E)` returns exactly `v`.
The hypotheses are the world invariants: sparse sets well-formed, the
entity's index covered by every column (`column.len = num_entities`), and —
for the replace path — the currently stored component slot initialized. -/
theorem c7_add_then_get (w : WorldContainer) (e : Entity) (cid v : Nat) (info : EntityInfo)
    (hInvI : w.entityManager.entityInfo.Inv)
    (hInvC : info.components.Inv)
    (hInvCol : w.storage.columns.Inv)
    (hlive : w.entityManager.infoGet e = some info)
    (hidx : e.1 < w.storage.numEntities)
    (hlen : ∀ p ∈ w.storage.columns.dense, (p.2 : Column).clen = w.storage.numEntities)
    (hslot : (info.components.get cid).isSome = true →
       (w.storage.getComponentRead e cid).isSome = true) :
    (w.addComponent e cid v).map (fun w2 => w2.getComponent e cid) = some (some v) := by
  obtain ⟨hgete, hgen⟩ := infoGet_elim hlive
  by_cases hc : (info.components.get cid).isSome = true
  · -- replace path: the component is already present
    have hread := hslot hc
    unfold TableStorage.getComponentRead at hread
    cases hcol : w.storage.columns.get cid with
    | none => rw [hcol] at hread; cases hread
    | some c =>
      rw [hcol] at hread
      simp only [Option.some_bind, Column.readAt] at hread
      cases hso : c.slots[e.1]? with
      | none => rw [hso] at hread; cases hread
      | some o =>
        rw [hso] at hread
        cases o with
        | none => cases hread
        | some oldv =>
          have hclen : c.clen = w.storage.numEntities :=
            columns_get_clen hInvCol hlen hcol
          have hb1 : e.1 < c.slots.length := by
            unfold Column.clen at hclen
            omega
          have herase : w.storage.eraseEntityComponent e cid =
              some { w.storage with columns := (w.storage.columns.insert cid
                ⟨c.slots.set e.1 none, c.dropLog ++ [oldv]⟩).1 } := by
            simp only [TableStorage.eraseEntityComponent, hcol, Column.dropAt, hso,
              Option.map]
          have hInv1 := SpSet.inv_insert hInvCol cid
            (⟨c.slots.set e.1 none, c.dropLog ++ [oldv]⟩ : Column)
          have hget1 := SpSet.get_insert_self hInvCol cid
            (⟨c.slots.set e.1 none, c.dropLog ++ [oldv]⟩ : Column)
          have haddc : TableStorage.addEntityComponent
              { w.storage with columns := (w.storage.columns.insert cid
                ⟨c.slots.set e.1 none, c.dropLog ++ [oldv]⟩).1 } e cid v =
              some { w.storage with columns :=
                (((w.storage.columns.insert cid
                  ⟨c.slots.set e.1 none, c.dropLog ++ [oldv]⟩).1).insert cid
                  ⟨(c.slots.set e.1 none).set e.1 (some v), c.dropLog ++ [oldv]⟩).1 } := by
            simp only [TableStorage.addEntityComponent, hget1, Column.insertAt]
            rw [if_pos (by simpa using hb1)]
          have hrep : w.storage.replaceEntityComponent e cid v =
              some { w.storage with columns :=
                (((w.storage.columns.insert cid
                  ⟨c.slots.set e.1 none, c.dropLog ++ [oldv]⟩).1).insert cid
                  ⟨(c.slots.set e.1 none).set e.1 (some v), c.dropLog ++ [oldv]⟩).1 } := by
            simp only [TableStorage.replaceEntityComponent, herase, Option.some_bind, haddc]
          have hget2 := SpSet.get_insert_self hInv1 cid
            (⟨(c.slots.set e.1 none).set e.1 (some v), c.dropLog ++ [oldv]⟩ : Column)
          simp only [List.set_set] at hget2
          simp only [WorldContainer.addComponent, hlive]
          rw [if_pos hc]
          rw [hrep]
          simp only [Option.map]
          simp [WorldContainer.getComponent, registerCid_mem_self, hlive, hc,
            TableStorage.getComponentRead, hget2, Column.readAt,
            List.getElem?_set_self hb1]
  · -- fresh path: extend the component set, update the archetype, add
    have hlive1 : (WorldContainer.addComponentFresh w e cid info).entityManager.infoGet e =
        some { info with components := (info.components.insert cid ()).1 } := by
      simp only [WorldContainer.addComponentFresh]
      exact infoGet_setInfo_self _ hInvI hlive hgen
    obtain ⟨am2, hshape⟩ := updateEntityArchetype_shape _ e _ hlive1
    have hb2 : ∀ c0 : Column, w.storage.columns.get cid = some c0 →
        e.1 < c0.slots.length := by
      intro c0 hc0
      have := columns_get_clen hInvCol hlen hc0
      unfold Column.clen at this
      omega
    have hstep1 : (w.entityManager.setInfo e
        ⟨info.generation, (info.components.insert cid ()).1, info.archetypeId⟩).infoGet e =
        some ⟨info.generation, (info.components.insert cid ()).1, info.archetypeId⟩ :=
      infoGet_setInfo_self _ hInvI hlive hgen
    have hinfo2 : ((w.entityManager.setInfo e
        ⟨info.generation, (info.components.insert cid ()).1, info.archetypeId⟩).setInfo e
        ⟨info.generation, (info.components.insert cid ()).1,
          sipHashIds (info.components.insert cid ()).1.keySeq⟩).infoGet e =
        some ⟨info.generation, (info.components.insert cid ()).1,
          sipHashIds (info.components.insert cid ()).1.keySeq⟩ :=
      infoGet_setInfo_self _ (setInfo_inv e _ hInvI) hstep1 hgen
    simp only [WorldContainer.addComponent, hlive]
    rw [if_neg hc]
    rw [hshape]
    simp only [Option.some_bind]
    cases hcol : w.storage.columns.get cid with
    | some c =>
      have hb3 := hb2 c hcol
      have haddc : TableStorage.addEntityComponent w.storage e cid v =
          some { w.storage with columns :=
            (w.storage.columns.insert cid ⟨c.slots.set e.1 (some v), c.dropLog⟩).1 } := by
        simp only [TableStorage.addEntityComponent, hcol, Column.insertAt]
        rw [if_pos (by simpa using hb3)]
      have hget3 := SpSet.get_insert_self hInvCol cid
        (⟨c.slots.set e.1 (some v), c.dropLog⟩ : Column)
      simp only [WorldContainer.addComponentFresh] at haddc ⊢
      rw [haddc]
      simp only [Option.map]
      simp [WorldContainer.getComponent, registerCid_mem_self, hinfo2,
        SpSet.get_insert_self hInvC cid (),
        TableStorage.getComponentRead, hget3, Column.readAt,
        List.getElem?_set_self hb3]
    | none =>
      have hb3 : e.1 < (List.replicate w.storage.numEntities
          (none : Option Nat)).length := by
        simpa using hidx
      have haddc : TableStorage.addEntityComponent w.storage e cid v =
          some { w.storage with columns :=
            (w.storage.columns.insert cid
              ⟨(List.replicate w.storage.numEntities none).set e.1 (some v), []⟩).1 } := by
        simp only [TableStorage.addEntityComponent, hcol, Column.fresh, Column.insertAt]
        rw [if_pos (by simpa using hb3)]
      have hget3 := SpSet.get_insert_self hInvCol cid
        (⟨(List.replicate w.storage.numEntities none).set e.1 (some v), []⟩ : Column)
      simp only [WorldContainer.addComponentFresh] at haddc ⊢
      rw [haddc]
      simp only [Option.map]
      simp [WorldContainer.getComponent, registerCid_mem_self, hinfo2,
        SpSet.get_insert_self hInvC cid (),
        TableStorage.getComponentRead, hget3, Column.readAt,
        List.getElem?_set_self hb3]

/-- A one-entity world: entity `(0,0)` spawned in a fresh container. -/
def c7wWorld : WorldContainer :=
  { storage := { columns := SpSet.empty, numEntities := 1 },
    registrar := [],
    entityManager := ⟨1, ⟨[((0, 0), ⟨0, SpSet.empty, 0⟩)], [0]⟩, []⟩,
    archetypeManager := [],
    sendResources := SpSet.empty,
    nonSendResources := SpSet.empty,
    resourceSendness := SpSet.empty }

theorem c7_add_then_get_witness :
    (c7wWorld.entityManager.entityInfo.Inv ∧
     (SpSet.empty : SpSet Nat Unit).Inv ∧
     c7wWorld.storage.columns.Inv ∧
     c7wWorld.entityManager.infoGet (0, 0) = some ⟨0, SpSet.empty, 0⟩ ∧
     (0 : Nat) < c7wWorld.storage.numEntities) ∧
    (c7wWorld.addComponent (0, 0) 0 7).map (fun w2 => w2.getComponent (0, 0) 0) =
      some (some 7) :=
  ⟨⟨by decide, by decide, by decide, by decide, by decide⟩,
    c7_add_then_get c7wWorld (0, 0) 0 7 ⟨0, SpSet.empty, 0⟩ (by decide) (by decide)
      (by decide) (by decide) (by decide)
      (by intro p hp; nomatch hp)
      (by intro h; exact absurd h (by decide))⟩

/-! ## Claim C10 — adding an already-present component replaces in place -/

/-- C10: when the entity already carries type `T` (id `cid`, stored value
`oldv`), `add_component(E, v2)` takes the replace path: the stored value
becomes `v2`, the old value's destructor runs exactly once (the column's
drop log grows by exactly `[oldv]`), the entity manager (so every entity's
component set and archetype id) and the archetype manager are untouched,
and every other (entity, component) slot reads exactly as before. -/
theorem c10_add_existing_replaces (w : WorldContainer) (e : Entity) (cid v2 oldv : Nat)
    (info : EntityInfo)
    (hInvCol : w.storage.columns.Inv)
    (hlive : w.entityManager.infoGet e = some info)
    (hreg : w.registrar.contains cid = true)
    (hhas : (info.components.get cid).isSome = true)
    (hold : w.storage.getComponentRead e cid = some oldv) :
    (w.addComponent e cid v2).map (fun w2 => w2.getComponent e cid) = some (some v2) ∧
    (w.addComponent e cid v2).map (fun w2 => w2.entityManager) = some w.entityManager ∧
    (w.addComponent e cid v2).map (fun w2 => w2.archetypeManager) =
      some w.archetypeManager ∧
    (w.addComponent e cid v2).map
        (fun w2 => (w2.storage.columns.get cid).map Column.dropLog) =
      some ((w.storage.columns.get cid).map (fun c => c.dropLog ++ [oldv])) ∧
    (∀ e2 : Entity, ∀ cid2 : Nat, ¬ (e2.1 = e.1 ∧ cid2 = cid) →
      (w.addComponent e cid v2).map (fun w2 => w2.getComponent e2 cid2) =
        some (w.getComponent e2 cid2)) := by
  unfold TableStorage.getComponentRead at hold
  cases hcol : w.storage.columns.get cid with
  | none => rw [hcol] at hold; cases hold
  | some c =>
    rw [hcol] at hold
    simp only [Option.some_bind, Column.readAt] at hold
    cases hso : c.slots[e.1]? with
    | none => rw [hso] at hold; cases hold
    | some o =>
      rw [hso] at hold
      cases o with
      | none => cases hold
      | some ov =>
        simp only [Option.some_inj, id] at hold
        cases hold
        have hb1 : e.1 < c.slots.length := by
          obtain ⟨hb, _⟩ := List.getElem?_eq_some_iff.mp hso
          exact hb
        have herase : w.storage.eraseEntityComponent e cid =
            some { w.storage with columns := (w.storage.columns.insert cid
              ⟨c.slots.set e.1 none, c.dropLog ++ [oldv]⟩).1 } := by
          simp only [TableStorage.eraseEntityComponent, hcol, Column.dropAt, hso,
            Option.map]
        have hInv1 := SpSet.inv_insert hInvCol cid
          (⟨c.slots.set e.1 none, c.dropLog ++ [oldv]⟩ : Column)
        have hget1 := SpSet.get_insert_self hInvCol cid
          (⟨c.slots.set e.1 none, c.dropLog ++ [oldv]⟩ : Column)
        have haddc : TableStorage.addEntityComponent
            { w.storage with columns := (w.storage.columns.insert cid
              ⟨c.slots.set e.1 none, c.dropLog ++ [oldv]⟩).1 } e cid v2 =
            some { w.storage with columns :=
              (((w.storage.columns.insert cid
                ⟨c.slots.set e.1 none, c.dropLog ++ [oldv]⟩).1).insert cid
                ⟨(c.slots.set e.1 none).set e.1 (some v2), c.dropLog ++ [oldv]⟩).1 } := by
          simp only [TableStorage.addEntityComponent, hget1, Column.insertAt]
          rw [if_pos (by simpa using hb1)]
        have hrep : w.storage.replaceEntityComponent e cid v2 =
            some { w.storage with columns :=
              (((w.storage.columns.insert cid
                ⟨c.slots.set e.1 none, c.dropLog ++ [oldv]⟩).1).insert cid
                ⟨(c.slots.set e.1 none).set e.1 (some v2), c.dropLog ++ [oldv]⟩).1 } := by
          simp only [TableStorage.replaceEntityComponent, herase, Option.some_bind, haddc]
        have hget2 := SpSet.get_insert_self hInv1 cid
          (⟨(c.slots.set e.1 none).set e.1 (some v2), c.dropLog ++ [oldv]⟩ : Column)
        simp only [List.set_set] at hget2
        have hregeq : WorldContainer.registerCid w.registrar cid = w.registrar :=
          registerCid_of_contains hreg
        have haddeq : w.addComponent e cid v2 =
            some { w with registrar := w.registrar, storage :=
              { w.storage with columns :=
                (((w.storage.columns.insert cid
                  ⟨c.slots.set e.1 none, c.dropLog ++ [oldv]⟩).1).insert cid
                  ⟨(c.slots.set e.1 none).set e.1 (some v2), c.dropLog ++ [oldv]⟩).1 } } := by
          simp only [WorldContainer.addComponent, hlive]
          rw [if_pos hhas]
          rw [hrep]
          simp only [Option.map, hregeq]
        refine ⟨?_, ?_, ?_, ?_, ?_⟩
        · rw [haddeq]
          simp only [Option.map]
          have hmem : cid ∈ w.registrar := by simpa using hreg
          simp [WorldContainer.getComponent, hmem, hlive, hhas,
            TableStorage.getComponentRead, hget2, Column.readAt,
            List.getElem?_set_self hb1]
        · rw [haddeq]
          rfl
        · rw [haddeq]
          rfl
        · rw [haddeq]
          simp only [Option.map, hcol, List.set_set]
          rw [hget2]
        · intro e2 cid2 hne
          rw [haddeq]
          simp only [Option.map, Option.some_inj]
          have hread : TableStorage.getComponentRead
              { w.storage with columns :=
                (((w.storage.columns.insert cid
                  ⟨c.slots.set e.1 none, c.dropLog ++ [oldv]⟩).1).insert cid
                  ⟨(c.slots.set e.1 none).set e.1 (some v2),
                    c.dropLog ++ [oldv]⟩).1 } e2 cid2 =
              w.storage.getComponentRead e2 cid2 := by
            unfold TableStorage.getComponentRead
            by_cases hc2 : cid2 = cid
            · subst hc2
              have he2 : e2.1 ≠ e.1 := by
                intro hh
                exact hne ⟨hh, rfl⟩
              simp only [List.set_set]
              rw [hget2, hcol]
              simp only [Option.some_bind, Column.readAt]
              rw [List.getElem?_set_ne (fun hh => he2 hh.symm)]
            · rw [SpSet.get_insert_ne hInv1 _ (by simpa using hc2)]
              rw [SpSet.get_insert_ne hInvCol _ (by simpa using hc2)]
          simp only [WorldContainer.getComponent]
          cases hig : w.entityManager.infoGet e2 with
          | none => simp
          | some info2 =>
            simp only
            rw [hread]

/-- The one-entity world after storing component `0 ↦ 7` on entity `(0,0)`. -/
def c10wWorld : WorldContainer :=
  (c7wWorld.addComponent (0, 0) 0 7).getD WorldContainer.new

theorem c10_add_existing_replaces_witness :
    (c10wWorld.storage.columns.Inv ∧
     c10wWorld.entityManager.infoGet (0, 0) =
       some ⟨0, (SpSet.empty.insert 0 ()).1, sipHashIds [0]⟩ ∧
     c10wWorld.registrar.contains 0 = true ∧
     (((⟨0, (SpSet.empty.insert 0 ()).1, sipHashIds [0]⟩ :
        EntityInfo)).components.get 0).isSome = true ∧
     c10wWorld.storage.getComponentRead (0, 0) 0 = some 7) ∧
    (c10wWorld.addComponent (0, 0) 0 9).map (fun w2 => w2.getComponent (0, 0) 0) =
      some (some 9) ∧
    (c10wWorld.addComponent (0, 0) 0 9).map
        (fun w2 => (w2.storage.columns.get 0).map Column.dropLog) =
      some ((c10wWorld.storage.columns.get 0).map (fun cc => cc.dropLog ++ [7])) := by
  have h := c10_add_existing_replaces c10wWorld (0, 0) 0 9 7
    ⟨0, (SpSet.empty.insert 0 ()).1, sipHashIds [0]⟩
    (by decide) (by decide) (by decide) (by decide) (by decide)
  exact ⟨⟨by decide, by decide, by decide, by decide, by decide⟩, h.1, h.2.2.2.1⟩

/-! ## Claim C9 — duplicate component ids in one query panic -/

theorem containsKey_empty {κ τ : Type} [SpIdx κ] (c : κ) :
    (SpSet.empty : SpSet κ τ).containsKey c = false := by
  simp [SpSet.containsKey, SpSet.get, SpSet.getKey, SpSet.empty]

/-- `compute_component_set` over a tuple of fetch terms succeeds exactly when
the component ids of the terms are pairwise distinct and none of them is
already in the accumulator set. -/
theorem computeComponentSet_isSome_iff (terms : List QTerm) (s : SpSet Nat AccessMode)
    (hs : s.Inv) :
    (computeComponentSet terms s).isSome = true ↔
      ((termCids terms).Nodup ∧ ∀ c ∈ termCids terms, s.containsKey c = false) := by
  induction terms generalizing s with
  | nil => simp [computeComponentSet, termCids]
  | cons t rest ih =>
    cases t with
    | entity =>
      simp only [computeComponentSet, termComputeSet, Option.some_bind]
      rw [ih s hs]
      simp [termCids, List.filterMap_cons, QTerm.tcid]
    | readC c =>
      simp only [computeComponentSet, termComputeSet, termCids, List.filterMap_cons,
        QTerm.tcid]
      cases hck : s.containsKey c with
      | true =>
        have hflag : (s.insert c AccessMode.read).2 = false := by
          rw [SpSet.insert_flag hs]
          unfold SpSet.containsKey at hck
          rw [hck]
          rfl
        rw [hflag]
        simp only [Bool.false_eq_true, if_false, Option.none_bind, Option.isSome_none]
        constructor
        · intro h
          cases h
        · rintro ⟨_, hall⟩
          have hc := hall c (List.mem_cons_self c _)
          rw [hck] at hc
          cases hc
      | false =>
        have hflag : (s.insert c AccessMode.read).2 = true := by
          rw [SpSet.insert_flag hs]
          unfold SpSet.containsKey at hck
          rw [hck]
          rfl
        rw [hflag]
        simp only [if_true, Option.some_bind]
        rw [ih _ (SpSet.inv_insert hs c AccessMode.read)]
        constructor
        · rintro ⟨hnd, hall⟩
          refine ⟨List.nodup_cons.mpr ⟨?_, hnd⟩, ?_⟩
          · intro hmem
            have hh := hall c hmem
            rw [SpSet.containsKey_insert hs c c AccessMode.read] at hh
            simp at hh
          · intro c2 hc2
            rcases List.mem_cons.mp hc2 with h | h
            · rw [h]
              exact hck
            · have hh := hall c2 h
              rw [SpSet.containsKey_insert hs c c2 AccessMode.read] at hh
              simp at hh
              exact hh.2
        · rintro ⟨hnd, hall⟩
          obtain ⟨hnotin, hnd2⟩ := List.nodup_cons.mp hnd
          refine ⟨hnd2, ?_⟩
          intro c2 hc2
          rw [SpSet.containsKey_insert hs c c2 AccessMode.read]
          have hne : c2 ≠ c := fun hh => hnotin (hh ▸ hc2)
          have hc2s := hall c2 (List.mem_cons_of_mem _ hc2)
          simp [hne, hc2s]
    | writeC c =>
      simp only [computeComponentSet, termComputeSet, termCids, List.filterMap_cons,
        QTerm.tcid]
      cases hck : s.containsKey c with
      | true =>
        have hflag : (s.insert c AccessMode.write).2 = false := by
          rw [SpSet.insert_flag hs]
          unfold SpSet.containsKey at hck
          rw [hck]
          rfl
        rw [hflag]
        simp only [Bool.false_eq_true, if_false, Option.none_bind, Option.isSome_none]
        constructor
        · intro h
          cases h
        · rintro ⟨_, hall⟩
          have hc := hall c (List.mem_cons_self c _)
          rw [hck] at hc
          cases hc
      | false =>
        have hflag : (s.insert c AccessMode.write).2 = true := by
          rw [SpSet.insert_flag hs]
          unfold SpSet.containsKey at hck
          rw [hck]
          rfl
        rw [hflag]
        simp only [if_true, Option.some_bind]
        rw [ih _ (SpSet.inv_insert hs c AccessMode.write)]
        constructor
        · rintro ⟨hnd, hall⟩
          refine ⟨List.nodup_cons.mpr ⟨?_, hnd⟩, ?_⟩
          · intro hmem
            have hh := hall c hmem
            rw [SpSet.containsKey_insert hs c c AccessMode.write] at hh
            simp at hh
          · intro c2 hc2
            rcases List.mem_cons.mp hc2 with h | h
            · rw [h]
              exact hck
            · have hh := hall c2 h
              rw [SpSet.containsKey_insert hs c c2 AccessMode.write] at hh
              simp at hh
              exact hh.2
        · rintro ⟨hnd, hall⟩
          obtain ⟨hnotin, hnd2⟩ := List.nodup_cons.mp hnd
          refine ⟨hnd2, ?_⟩
          intro c2 hc2
          rw [SpSet.containsKey_insert hs c c2 AccessMode.write]
          have hne : c2 ≠ c := fun hh => hnotin (hh ▸ hc2)
          have hc2s := hall c2 (List.mem_cons_of_mem _ hc2)
          simp [hne, hc2s]

/-- C9: starting from the empty component set, `compute_component_set` on a
query's fetch terms panics ("Query accesses twice the same component type!")
exactly when some component id appears in two fetch terms — two reads, two
writes, or a read and a write of the same type all panic — and succeeds when
the mentioned ids are pairwise distinct (`Entity` terms contribute no id). -/
theorem c9_duplicate_component_id_panics (terms : List QTerm) :
    computeComponentSet terms SpSet.empty = none ↔ ¬ (termCids terms).Nodup := by
  have h := computeComponentSet_isSome_iff terms SpSet.empty SpSet.inv_empty
  constructor
  · intro hn hnd
    have hT := h.mpr ⟨hnd, fun c _ => containsKey_empty c⟩
    rw [hn] at hT
    cases hT
  · intro hnd
    cases hcc : computeComponentSet terms SpSet.empty with
    | none => rfl
    | some s2 =>
      exfalso
      exact hnd (h.mp (by rw [hcc]; rfl)).1

/-! ## Claim C4 — system dependency recording (src/src/system.rs) -/

/-- A system parameter, as far as dependency recording goes: a `Query` with
its fetch terms, a `Res<R>` or a `ResMut<R>` with `R`'s component id. -/
inductive SParam
  | query (terms : List QTerm)
  | res (cid : Nat)
  | resMut (cid : Nat)
  deriving DecidableEq, Repr

/-- `SystemParam::add_dependencies` for one parameter. `Query` runs
`compute_component_set` (which can panic on a duplicate id, hence `Option`);
`Res` inserts `(id, Read)`; `ResMut` also inserts `(id, Read)`
(src/src/system.rs:372) even though it hands out mutable access. -/
def paramAddDependencies (p : SParam) (cs : SpSet Nat AccessMode) :
    Option (SpSet Nat AccessMode) :=
  match p with
  | .query terms => computeComponentSet terms cs
  | .res cid => some (cs.insert cid AccessMode.read).1
  | .resMut cid => some (cs.insert cid AccessMode.read).1

/-- The free function `add_dependencies` (src/src/system.rs:297-310): merge
one parameter's map into the system's map; on a collision the stored mode is
overwritten only when the incoming mode is `Write`. -/
def mergeDeps (pd sd : SpSet Nat AccessMode) : SpSet Nat AccessMode :=
  pd.dense.foldl
    (fun acc kv =>
      if (acc.get kv.1).isSome then
        if kv.2 = AccessMode.write then acc.setValueAt kv.1 kv.2 else acc
      else (acc.insert kv.1 kv.2).1)
    sd

/-- `SystemContainer::compute_dependencies`: each parameter computes its own
map from scratch, which is then merged into the system's accumulated map. -/
def computeDependenciesGo (params : List SParam) (deps : SpSet Nat AccessMode) :
    Option (SpSet Nat AccessMode) :=
  match params with
  | [] => some deps
  | p :: rest =>
    (paramAddDependencies p SpSet.empty).bind fun pd =>
      computeDependenciesGo rest (mergeDeps pd deps)

def computeDependencies (params : List SParam) : Option (SpSet Nat AccessMode) :=
  computeDependenciesGo params SpSet.empty

/-- C4: the dependency map captured for a system declaring a `ResMut<R>`
parameter records access mode `Read` — not `Write` — for `R`'s component id:
a one-parameter `ResMut` system ends up with `Read` recorded, and `ResMut`'s
dependency recording is literally identical to `Res`'s. -/
theorem c4_resmut_records_read (cid : Nat) :
    (computeDependencies [SParam.resMut cid]).map (fun d => d.get cid) =
      some (some AccessMode.read) ∧
    (∀ cs, paramAddDependencies (SParam.resMut cid) cs =
      paramAddDependencies (SParam.res cid) cs) ∧
    AccessMode.read ≠ AccessMode.write := by
  refine ⟨?_, fun cs => rfl, by decide⟩
  have hpd : ((SpSet.empty : SpSet Nat AccessMode).insert cid AccessMode.read).1.dense
      = [(cid, AccessMode.read)] := by
    simp [SpSet.insert, SpSet.getKey, SpSet.empty, SpSet.ensureCapacityFor]
  have hempty_get : (SpSet.empty : SpSet Nat AccessMode).get cid = none := by
    simp [SpSet.get, SpSet.getKey, SpSet.empty]
  simp only [computeDependencies, computeDependenciesGo, paramAddDependencies,
    Option.some_bind, Option.map]
  unfold mergeDeps
  rw [hpd]
  simp only [List.foldl_cons, List.foldl_nil, hempty_get, Option.isSome_none,
    Bool.false_eq_true, if_false]
  rw [SpSet.get_insert_self SpSet.inv_empty cid AccessMode.read]

/-! ## Claim C1 — the GraphScheduler (src/src/schedule.rs)

The scheduler is embedded over the values it actually consumes from a
system: its dependency map (`System::compute_dependencies`) and its
exclusivity flag (`System::is_exclusive`).  Node indices are naturals;
node 0 is the root.  `HashSet<NodeIndex>` is a duplicate-free list grown
with `hsInsert`; `HashMap<NodeIndex, SystemGraphEdge>` is an association
list with insert-replace (`ndInsert`).  Iterations whose source order is a
hash-map or hash-set order are taken in the model's list order; for the
concrete trace below every such iteration is order-independent. -/

/-- `GraphResourceOwnership`. -/
structure Ownership where
  accessMode : AccessMode
  lastAccessing : List Nat
  lastWriting : Option Nat

/-- `SystemGraphEdge`: the component/mode changes recorded on an edge. -/
structure SEdge where
  changes : List (Nat × AccessMode)

/-- `HashSet::insert`. -/
def hsInsert (l : List Nat) (x : Nat) : List Nat :=
  if x ∈ l then l else l ++ [x]

/-- `HashMap::insert`: replace the value on a hit, append otherwise. -/
def ndInsert (m : List (Nat × SEdge)) (k : Nat) (v : SEdge) : List (Nat × SEdge) :=
  if m.any (fun p => p.1 = k) then
    m.map (fun p => if p.1 = k then (k, v) else p)
  else m ++ [(k, v)]

/-- The `GraphScheduler` state: per-component ownership, one dependency map
per node (index = `NodeIndex`, node 0 the root), and the directed edges. -/
structure GraphSched where
  currentDependencies : SpSet Nat Ownership
  nodeDeps : List (SpSet Nat AccessMode)
  edges : List (Nat × Nat × SEdge)

namespace GraphSched

/-- `GraphScheduler::new`: a lone root node, no ownership, no edges. -/
def new : GraphSched :=
  { currentDependencies := SpSet.empty, nodeDeps := [SpSet.empty], edges := [] }

/-- Edge targets of `n` (`graph.edges(n).map(|e| e.target())`). -/
def targetsOf (s : GraphSched) (n : Nat) : List Nat :=
  s.edges.filterMap fun e => if e.1 = n then some e.2.1 else none

/-- Edge sources into `n` (`graph.edges_directed(n, Incoming)`). -/
def parentsOf (s : GraphSched) (n : Nat) : List Nat :=
  s.edges.filterMap fun e => if e.2.1 = n then some e.1 else none

/-- `GraphScheduler::compute_node_dependencies`: walk the system's
dependency map in insertion order and record, per predecessor node, the
edge changes.  A component absent from `current_dependencies` contributes
nothing (it is silently dropped). -/
def computeNodeDependencies (s : GraphSched) (deps : SpSet Nat AccessMode) :
    List (Nat × SEdge) :=
  deps.dense.foldl
    (fun nd kv =>
      match s.currentDependencies.get kv.1 with
      | some ownership =>
        match kv.2 with
        | AccessMode.write =>
          if ownership.lastAccessing.isEmpty then
            match ownership.lastWriting with
            | some writer => ndInsert nd writer ⟨[(kv.1, AccessMode.write)]⟩
            | none => nd
          else
            ownership.lastAccessing.foldl
              (fun nd2 reading => ndInsert nd2 reading ⟨[(kv.1, AccessMode.write)]⟩) nd
        | AccessMode.read =>
          match ownership.lastWriting with
          | some writer => ndInsert nd writer ⟨[(kv.1, AccessMode.read)]⟩
          | none => nd
      | none => nd)
    []

/-- `GraphScheduler::place_system_at_graph_begin`: claim ownership of every
component in the map and hang the node off the root. -/
def placeSystemAtGraphBegin (s : GraphSched) (deps : SpSet Nat AccessMode)
    (idx : Nat) : GraphSched :=
  { s with
    currentDependencies :=
      deps.dense.foldl
        (fun cd kv =>
          (cd.insert kv.1
            ⟨kv.2,
             if kv.2 = AccessMode.read then [idx] else [],
             if kv.2 = AccessMode.write then some idx else none⟩).1)
        s.currentDependencies,
    edges := s.edges ++ [(0, idx, ⟨[]⟩)] }

/-- One ownership update of `place_system_dependencies`; the `.unwrap()` on
a missing component is a panic (`none`). -/
def applyChange (cd : SpSet Nat Ownership) (idx : Nat) (ch : Nat × AccessMode) :
    Option (SpSet Nat Ownership) :=
  match cd.get ch.1 with
  | some dep =>
    some (cd.setValueAt ch.1
      ⟨ch.2,
       if ch.2 = AccessMode.read then hsInsert dep.lastAccessing idx else [],
       if ch.2 = AccessMode.read then dep.lastWriting else some idx⟩)
  | none => none

/-- `GraphScheduler::place_system_dependencies`: for each recorded
predecessor, update the ownership of the components on the edge's change
list, then add the edge. -/
def placeSystemDependencies (s : GraphSched) (nd : List (Nat × SEdge))
    (idx : Nat) : Option GraphSched :=
  nd.foldlM
    (fun s2 oc =>
      (oc.2.changes.foldlM (fun cd ch => applyChange cd idx ch)
        s2.currentDependencies).map
        fun cd =>
          { s2 with currentDependencies := cd,
                    edges := s2.edges ++ [(oc.1, idx, oc.2)] })
    s

/-- `GraphScheduler::place_system_dependency_on_leaves`: point every leaf at
the new node and force all ownerships to `Write` by it. -/
def placeSystemDependencyOnLeaves (s : GraphSched) (idx : Nat) : GraphSched :=
  let leaves := (List.range s.nodeDeps.length).filter fun node =>
    node ≠ idx && (s.targetsOf node).isEmpty
  { s with
    edges := s.edges ++ leaves.map (fun leaf => (leaf, idx, (⟨[]⟩ : SEdge))),
    currentDependencies :=
      s.currentDependencies.mapValues fun _ =>
        ⟨AccessMode.write, [], some idx⟩ }

/-- `GraphScheduler::add_system`, given the system's computed dependency map
and exclusivity flag. -/
def addSystem (s : GraphSched) (deps : SpSet Nat AccessMode) (exclusive : Bool) :
    Option (GraphSched × Nat) :=
  let idx := s.nodeDeps.length
  let s1 := { s with nodeDeps := s.nodeDeps ++ [deps] }
  if exclusive then
    some (placeSystemDependencyOnLeaves s1 idx, idx)
  else
    let nd := computeNodeDependencies s1 deps
    if nd.isEmpty then some (placeSystemAtGraphBegin s1 deps idx, idx)
    else (placeSystemDependencies s1 nd idx).map fun s2 => (s2, idx)

/-- One wave of `compute_schedule`'s inner `for job in current_jobs` loop:
returns the updated scheduled set, the wave's layer, and the next job set.
A job whose parents are all scheduled is pushed and immediately counts as
scheduled for the jobs after it. -/
def wave (s : GraphSched) (prev current : List Nat) :
    List Nat × List Nat × List Nat :=
  current.foldl
    (fun st job =>
      if (s.parentsOf job).all (fun p => p ∈ st.1) then
        (hsInsert st.1 job, st.2.1 ++ [job],
         (s.targetsOf job).foldl hsInsert st.2.2)
      else st)
    (prev, [], [])

/-- The wave loop, with fuel (each productive wave schedules at least one
new node, so `nodeDeps.length + 1` waves suffice). -/
def csGo (s : GraphSched) : Nat → List Nat → List Nat → List (List Nat) →
    List (List Nat)
  | 0, _, _, acc => acc
  | fuel + 1, prev, current, acc =>
    if current.isEmpty then acc
    else
      let w := wave s prev current
      csGo s fuel w.1 w.2.2 (if w.2.1.isEmpty then acc else acc ++ [w.2.1])

/-- `GraphScheduler::compute_schedule`: Kahn-style waves from the root. -/
def computeSchedule (s : GraphSched) : List (List Nat) :=
  csGo s (s.nodeDeps.length + 1) [0] ((s.targetsOf 0).foldl hsInsert []) []

end GraphSched

/-- Adding system A `(Query<&mut C1>)`, then B `(Query<(&C1, &mut C2)>)`,
then C `(Query<(&C1, &mut C2)>)` to a fresh `GraphScheduler`.  When B is
added, component 2 is not yet in `current_dependencies`, and because B has
a node dependency through component 1, `place_system_dependencies` runs and
B's write of component 2 is never recorded as an ownership; C then sees no
owner for component 2 either. -/
def c1Trace : Option GraphSched :=
  (computeDependencies [SParam.query [QTerm.writeC 1]]).bind fun dA =>
  (computeDependencies [SParam.query [QTerm.readC 1, QTerm.writeC 2]]).bind fun dB =>
  (computeDependencies [SParam.query [QTerm.readC 1, QTerm.writeC 2]]).bind fun dC =>
  (GraphSched.new.addSystem dA false).bind fun p1 =>
  (p1.1.addSystem dB false).bind fun p2 =>
  (p2.1.addSystem dC false).map fun p3 => p3.1

/-- C1: refuted by a three-system trace.  The computed schedule is
`[[1], [2, 3]]`, so the distinct non-root systems 2 (B) and 3 (C) share a
layer, yet both dependency maps record `Write` on component 2 — an aliasing
write/write conflict the scheduler was supposed to rule out. -/
theorem c1_same_layer_write_write_conflict :
    c1Trace.map GraphSched.computeSchedule = some [[1], [2, 3]] ∧
    c1Trace.map (fun s => (s.nodeDeps.getD 2 SpSet.empty).get 2) =
      some (some AccessMode.write) ∧
    c1Trace.map (fun s => (s.nodeDeps.getD 3 SpSet.empty).get 2) =
      some (some AccessMode.write) ∧
    (2 : Nat) ≠ 3 := by
  refine ⟨?_, ?_, ?_, by decide⟩ <;> decide

/-! ## Claim C2 — query match sets (src/src/system.rs, src/src/query.rs)

A query's cached state is its canonical archetype id and its entity set
(`QueryState`).  `Query::on_entity_changed` re-tests the entity against the
query archetype; the destroy handler and the rule that the scheduler is
notified after every component-set mutation come from the spec (the
`KecsWorld` façade that wires them is not part of `src/`). -/

/-- `QueryState`: the canonical archetype id and the cached match set
(`HashSet<Entity>` as a duplicate-free list). -/
structure QueryState where
  arch : Nat
  ents : List Entity
  deriving DecidableEq, Repr

/-- `Query::on_entity_changed` (src/src/system.rs:108-126): look up the
query archetype and the entity's archetype (each `expect` is a panic,
`none`), then insert or remove the entity by `includes_fully`. -/
def queryOnEntityChanged (q : QueryState) (w : WorldContainer) (e : Entity)
    (info : EntityInfo) : Option QueryState :=
  match mgrGet w.archetypeManager q.arch with
  | none => none
  | some sysArch =>
    match mgrGet w.archetypeManager info.archetypeId with
    | none => none
    | some entArch =>
      if includesFully entArch sysArch then
        some { q with ents := if e ∈ q.ents then q.ents else q.ents ++ [e] }
      else
        some { q with ents := q.ents.filter (fun x => x ≠ e) }

/-- Modelled from the spec: `on_entity_destroyed` (spec section 4.9) drops
the entity from the cached match set; its body is not in `src/`. -/
def queryOnEntityDestroyed (q : QueryState) (e : Entity) : QueryState :=
  { q with ents := q.ents.filter (fun x => x ≠ e) }

/-- `Scheduler::on_entity_updated` (src/src/schedule.rs): a live entity is
dispatched to `on_entity_changed` with its info, a dead one to
`on_entity_destroyed`. -/
def notifyQuery (q : QueryState) (w : WorldContainer) (e : Entity) :
    Option QueryState :=
  match w.entityManager.infoGet e with
  | some info => queryOnEntityChanged q w e info
  | none => some (queryOnEntityDestroyed q e)

/-- The spec-side membership predicate (spec section 8): `e` is live and the
archetype stored for it includes the query archetype's whole component set. -/
def queryMatches (w : WorldContainer) (qarch : Nat) (e : Entity) : Bool :=
  match w.entityManager.infoGet e with
  | none => false
  | some info =>
    match mgrGet w.archetypeManager qarch,
        mgrGet w.archetypeManager info.archetypeId with
    | some qa, some ea => includesFully ea qa
    | _, _ => false

/-- A world mutation driven from outside: spawn, add or replace a
component, remove a component, destroy an entity. -/
inductive WOp
  | spawn
  | addC (e : Entity) (cid v : Nat)
  | removeC (e : Entity) (cid : Nat)
  | destroy (e : Entity)

/-- Modelled from the spec (section 4.9): perform one mutation on the world
and, for the mutations that change an entity's component set (add, remove,
destroy), notify the query about the touched entity. -/
def runStep (st : WorldContainer × QueryState) (op : WOp) :
    Option (WorldContainer × QueryState) :=
  match op with
  | .spawn => (st.1.newEntity).map fun p => (p.2, st.2)
  | .addC e cid v =>
    (st.1.addComponent e cid v).bind fun w2 =>
      (notifyQuery st.2 w2 e).map fun q2 => (w2, q2)
  | .removeC e cid =>
    (st.1.removeComponent e cid).bind fun w2 =>
      (notifyQuery st.2 w2 e).map fun q2 => (w2, q2)
  | .destroy e =>
    (st.1.removeEntity e).bind fun w2 =>
      (notifyQuery st.2 w2 e).map fun q2 => (w2, q2)

def runOps : (WorldContainer × QueryState) → List WOp →
    Option (WorldContainer × QueryState)
  | st, [] => some st
  | st, op :: rest => (runStep st op).bind fun st2 => runOps st2 rest

/-- `Query::create_initial_state` on a fresh world: compute the component
set (panicking on duplicates), intern its archetype, then (from
`SystemContainer::init`) replay `on_entity_changed` over all live entities
— none, on a fresh world. -/
def initQuery (terms : List QTerm) : Option (WorldContainer × QueryState) :=
  (computeComponentSet terms SpSet.empty).bind fun cs =>
    let p := archetypeOf WorldContainer.new.archetypeManager cs
    let w : WorldContainer := { WorldContainer.new with archetypeManager := p.2 }
    (w.entityManager.entityInfo.dense.foldlM
      (fun q kv => queryOnEntityChanged q w kv.1 kv.2) ⟨p.1, []⟩).map
      fun q => (w, q)

/-- Create the query on a fresh world, then run the mutations. -/
def runQuery (terms : List QTerm) (ops : List WOp) :
    Option (WorldContainer × QueryState) :=
  (initQuery terms).bind fun st => runOps st ops

/-- `includes_fully` only reads the component lists. -/
theorem includesFully_congr {a a2 b b2 : Archetype}
    (ha : a2.components = a.components) (hb : b2.components = b.components) :
    includesFully a2 b2 = includesFully a b := by
  unfold includesFully
  rw [ha, hb]

/-- One archetype map refines another when every stored entry survives with
its component list intact (the `entities` field may differ). -/
def compView (am am2 : ArchMap) : Prop :=
  ∀ id a, mgrGet am id = some a →
    ∃ a2, mgrGet am2 id = some a2 ∧ a2.components = a.components

theorem compView_refl (am : ArchMap) : compView am am :=
  fun _ a h => ⟨a, h, rfl⟩

theorem compView_trans {am1 am2 am3 : ArchMap} (h12 : compView am1 am2)
    (h23 : compView am2 am3) : compView am1 am3 := by
  intro id a h
  obtain ⟨a2, h2, hc2⟩ := h12 id a h
  obtain ⟨a3, h3, hc3⟩ := h23 id a2 h2
  exact ⟨a3, h3, hc3.trans hc2⟩

theorem compView_mgrUpdate (am : ArchMap) (id : Nat) (f : Archetype → Archetype)
    (hf : ∀ a, (f a).components = a.components) :
    compView am (mgrUpdate am id f) := by
  intro id0 a h
  have hm := mgrGet_mgrUpdate_components am id f hf id0
  rw [h] at hm
  cases h2 : mgrGet (mgrUpdate am id f) id0 with
  | none => rw [h2] at hm; cases hm
  | some a2 =>
    rw [h2] at hm
    simp only [Option.map] at hm
    exact ⟨a2, rfl, Option.some_inj.mp hm⟩

theorem compView_archetypeOf {τ : Type} (am : ArchMap) (ids : SpSet Nat τ) :
    compView am (archetypeOf am ids).2 :=
  fun _ a h => ⟨a, mgrGet_archetypeOf_mono am ids h, rfl⟩

theorem compView_none {am am2 : ArchMap} (hcv : compView am am2) {id : Nat}
    (h2 : mgrGet am2 id = none) : mgrGet am id = none := by
  cases h : mgrGet am id with
  | none => rfl
  | some a =>
    obtain ⟨a2, ha2, _⟩ := hcv id a h
    rw [ha2] at h2
    cases h2

theorem compView_isSome {am am2 : ArchMap} (hcv : compView am am2) {id : Nat}
    (h : (mgrGet am id).isSome = true) : (mgrGet am2 id).isSome = true := by
  obtain ⟨a, ha⟩ := Option.isSome_iff_exists.mp h
  obtain ⟨a2, ha2, _⟩ := hcv id a ha
  rw [ha2]
  rfl

/-- The effect of one notification on the match set: the touched entity's
membership becomes exactly the spec predicate at the new world; nothing
else moves. -/
theorem notifyQuery_spec {q : QueryState} {w : WorldContainer} {e2 : Entity}
    {q2 : QueryState} (h : notifyQuery q w e2 = some q2) :
    q2.arch = q.arch ∧
    (∀ e : Entity, e ≠ e2 → ((e ∈ q2.ents) ↔ (e ∈ q.ents))) ∧
    ((e2 ∈ q2.ents) ↔ queryMatches w q.arch e2 = true) := by
  unfold notifyQuery at h
  cases hig : w.entityManager.infoGet e2 with
  | none =>
    rw [hig] at h
    cases h
    refine ⟨rfl, ?_, ?_⟩
    · intro e hne
      simp [queryOnEntityDestroyed, List.mem_filter, hne]
    · simp [queryOnEntityDestroyed, List.mem_filter, queryMatches, hig]
  | some info =>
    rw [hig] at h
    unfold queryOnEntityChanged at h
    cases hqa : mgrGet w.archetypeManager q.arch with
    | none => simp only [hqa] at h; cases h
    | some qa =>
      simp only [hqa] at h
      cases hea : mgrGet w.archetypeManager info.archetypeId with
      | none => simp only [hea] at h; cases h
      | some ea =>
        simp only [hea] at h
        have hmatch : queryMatches w q.arch e2 = includesFully ea qa := by
          simp only [queryMatches, hig, hqa, hea]
        cases hinc : includesFully ea qa with
        | true =>
          rw [if_pos hinc] at h
          cases h
          refine ⟨rfl, ?_, ?_⟩
          · intro e hne
            by_cases hm : e2 ∈ q.ents
            · simp [hm]
            · simp [hm, List.mem_append, hne]
          · rw [hmatch, hinc]
            simp only [iff_true]
            by_cases hm : e2 ∈ q.ents
            · simpa [hm] using hm
            · simp [hm]
        | false =>
          rw [if_neg (by simp [hinc])] at h
          cases h
          refine ⟨rfl, ?_, ?_⟩
          · intro e hne
            simp [List.mem_filter, hne]
          · rw [hmatch, hinc]
            simp [List.mem_filter]

/-- The spec predicate transfers along a step that leaves the entity's info
unchanged and refines the archetype map, provided live entities' archetypes
are interned and no archetype is stored under the default id 0 afterwards. -/
theorem queryMatches_preserved {w w2 : WorldContainer} {qarch : Nat} (e : Entity)
    (hinfo : w2.entityManager.infoGet e = w.entityManager.infoGet e)
    (hcv : compView w.archetypeManager w2.archetypeManager)
    (hlive : ∀ e0 info, w.entityManager.infoGet e0 = some info →
      info.archetypeId ≠ 0 →
      (mgrGet w.archetypeManager info.archetypeId).isSome = true)
    (harch : (mgrGet w.archetypeManager qarch).isSome = true)
    (h02 : mgrGet w2.archetypeManager 0 = none) :
    queryMatches w2 qarch e = queryMatches w qarch e := by
  unfold queryMatches
  rw [hinfo]
  cases hig : w.entityManager.infoGet e with
  | none => rfl
  | some info =>
    show (match mgrGet w2.archetypeManager qarch,
        mgrGet w2.archetypeManager info.archetypeId with
      | some qa, some ea => includesFully ea qa
      | _, _ => false) =
      (match mgrGet w.archetypeManager qarch,
          mgrGet w.archetypeManager info.archetypeId with
        | some qa, some ea => includesFully ea qa
        | _, _ => false)
    obtain ⟨qa, hqa⟩ := Option.isSome_iff_exists.mp harch
    obtain ⟨qa2, hqa2, hqc⟩ := hcv qarch qa hqa
    by_cases ha0 : info.archetypeId = 0
    · have h01 : mgrGet w.archetypeManager 0 = none := compView_none hcv h02
      rw [ha0, h01, h02, hqa, hqa2]
    · have hsm := hlive e info hig ha0
      obtain ⟨ea, hea⟩ := Option.isSome_iff_exists.mp hsm
      obtain ⟨ea2, hea2, hec⟩ := hcv _ ea hea
      rw [hqa, hqa2, hea, hea2]
      show includesFully ea2 qa2 = includesFully ea qa
      exact includesFully_congr hec hqc

theorem infoGet_congr_get {a b : EntityAllocator} {e : Entity}
    (h : a.entityInfo.get e = b.entityInfo.get e) : a.infoGet e = b.infoGet e := by
  unfold EntityAllocator.infoGet
  rw [h]

theorem infoGet_noneOfGetNone {a : EntityAllocator} {e : Entity}
    (h : a.entityInfo.get e = none) : a.infoGet e = none := by
  unfold EntityAllocator.infoGet
  rw [h]
  rfl

/-- A handle with the right index but the wrong generation misses. -/
theorem infoGet_stale {a : EntityAllocator} {e e2 : Entity} {i : EntityInfo}
    (hidx : e2.1 = e.1) (hne : e2 ≠ e)
    (hget : a.entityInfo.get e = some i) (hgen : i.generation = e.2) :
    a.infoGet e2 = none := by
  have hg2 : a.entityInfo.get e2 = some i := by
    rw [SpSet.get_congrIdx a.entityInfo
      (show SpIdx.idx e2 = SpIdx.idx e by simpa using hidx)]
    exact hget
  unfold EntityAllocator.infoGet
  rw [hg2]
  simp only [Option.some_bind]
  have hx : ¬ i.generation = e2.2 := by
    intro hgeq
    exact hne (Prod.ext hidx (hgeq ▸ hgen))
  rw [if_neg hx]

/-- A successful `update_entity_archetype` leaves registrar and storage in
place, stores the hash of the current component sequence as the entity's
archetype id, interns that archetype, and only ever rewrites `entities`
fields of existing archetypes. -/
theorem updateEntityArchetype_props {w : WorldContainer} {e : Entity}
    {info : EntityInfo} {w2 : WorldContainer}
    (h : w.entityManager.infoGet e = some info)
    (hw2 : w.updateEntityArchetype e = some w2) :
    w2.registrar = w.registrar ∧ w2.storage = w.storage ∧
    w2.entityManager = w.entityManager.setInfo e
      { info with archetypeId := sipHashIds info.components.keySeq } ∧
    compView w.archetypeManager w2.archetypeManager ∧
    (mgrGet w2.archetypeManager (sipHashIds info.components.keySeq)).isSome = true := by
  have hu : w.updateEntityArchetype e =
      WorldContainer.updateArchetypeGo w e info
        (archetypeOf (WorldContainer.amAfterRemove w e info) info.components) := by
    unfold WorldContainer.updateEntityArchetype
    rw [h]
  rw [hu] at hw2
  unfold WorldContainer.updateArchetypeGo at hw2
  cases hg : mgrGet (archetypeOf (WorldContainer.amAfterRemove w e info)
      info.components).2 (archetypeOf (WorldContainer.amAfterRemove w e info)
      info.components).1 with
  | none =>
    simp only [hg] at hw2
    exact Option.noConfusion hw2
  | some a =>
    simp only [hg] at hw2
    cases hw2
    have hfst : (archetypeOf (WorldContainer.amAfterRemove w e info)
        info.components).1 = sipHashIds info.components.keySeq :=
      archetypeOf_fst _ _
    have hcv1 : compView w.archetypeManager
        (WorldContainer.amAfterRemove w e info) := by
      unfold WorldContainer.amAfterRemove
      cases hr : mgrGet w.archetypeManager info.archetypeId with
      | none => exact compView_refl _
      | some _ => exact compView_mgrUpdate _ _ _ (fun _ => rfl)
    refine ⟨rfl, rfl, ?_, ?_, ?_⟩
    · show w.entityManager.setInfo e
        { info with archetypeId := (archetypeOf _ info.components).1 } = _
      rw [hfst]
    · exact compView_trans hcv1
        (compView_trans (compView_archetypeOf _ _)
          (compView_mgrUpdate _ _ _ (fun _ => rfl)))
    · show (mgrGet (mgrUpdate _ _ _) _).isSome = true
      rw [← hfst, mgrGet_mgrUpdate_isSome, hg]
      rfl

/-- `new_entity` effects: the info map gains the fresh handle with a default
info (generation of the handle, no components, archetype id 0); nothing
else — in particular no other handle's lookup and no archetype — moves, and
the handle was dead beforehand. -/
theorem newEntity_step {w : WorldContainer} {e0 : Entity} {w2 : WorldContainer}
    (h : w.newEntity = some (e0, w2))
    (hinv : w.entityManager.entityInfo.Inv) :
    w2.entityManager.entityInfo.Inv ∧
    w2.archetypeManager = w.archetypeManager ∧
    (∀ e : Entity, e ≠ e0 → w2.entityManager.infoGet e = w.entityManager.infoGet e) ∧
    w2.entityManager.infoGet e0 = some ⟨e0.2, SpSet.empty, 0⟩ ∧
    w.entityManager.infoGet e0 = none := by
  unfold WorldContainer.newEntity EntityAllocator.newEntity at h
  cases hpa : w.entityManager.allocateId with
  | mk eid a1 =>
    have hei : a1.entityInfo = w.entityManager.entityInfo := by
      have h2 : (w.entityManager.allocateId).2.entityInfo =
          w.entityManager.entityInfo := by
        unfold EntityAllocator.allocateId
        cases w.entityManager.droppedEntities.getLast? <;> rfl
      rw [hpa] at h2
      exact h2
    simp only [hpa] at h
    unfold EntityAllocator.newWithId at h
    by_cases hg : (a1.entityInfo.get eid).isSome = true
    · rw [if_pos hg] at h
      simp only [Option.map] at h
      exact Option.noConfusion h
    · rw [if_neg hg] at h
      simp only [Option.map] at h
      injection h with h1
      injection h1 with he hw
      subst he
      subst hw
      have hgnone : w.entityManager.entityInfo.get eid = none := by
        rw [← hei]
        cases hx : a1.entityInfo.get eid with
        | none => rfl
        | some _ => rw [hx] at hg; exact absurd rfl hg
      have hinv1 : a1.entityInfo.Inv := by rw [hei]; exact hinv
      refine ⟨?_, rfl, ?_, ?_, ?_⟩
      · exact SpSet.inv_insert hinv1 eid _
      · intro e hne
        by_cases hi : e.1 = eid.1
        · rw [infoGet_stale hi hne
            (SpSet.get_insert_self hinv1 eid
              (⟨eid.2, SpSet.empty, 0⟩ : EntityInfo)) rfl]
          have hge : w.entityManager.entityInfo.get e = none := by
            rw [SpSet.get_congrIdx w.entityManager.entityInfo
              (show SpIdx.idx e = SpIdx.idx eid by simpa using hi)]
            exact hgnone
          rw [infoGet_noneOfGetNone hge]
        · exact infoGet_congr_get
            ((SpSet.get_insert_ne hinv1 _ (by simpa using hi)).trans
              (by rw [hei]))
      · exact infoGet_intro
          (SpSet.get_insert_self hinv1 eid (⟨eid.2, SpSet.empty, 0⟩ : EntityInfo)) rfl
      · exact infoGet_noneOfGetNone hgnone

/-- `add_component` preserves the allocator invariant, refines the
archetype map, does not move any other handle's lookup, and keeps every
live entity's non-default archetype interned. -/
theorem addComponent_step {w w2 : WorldContainer} {e2 : Entity} {cid v : Nat}
    (h : w.addComponent e2 cid v = some w2)
    (hinv : w.entityManager.entityInfo.Inv)
    (hlive : ∀ e info, w.entityManager.infoGet e = some info →
      info.archetypeId ≠ 0 →
      (mgrGet w.archetypeManager info.archetypeId).isSome = true) :
    w2.entityManager.entityInfo.Inv ∧
    compView w.archetypeManager w2.archetypeManager ∧
    (∀ e : Entity, e ≠ e2 → w2.entityManager.infoGet e = w.entityManager.infoGet e) ∧
    (∀ e info, w2.entityManager.infoGet e = some info → info.archetypeId ≠ 0 →
      (mgrGet w2.archetypeManager info.archetypeId).isSome = true) := by
  unfold WorldContainer.addComponent at h
  cases hig : w.entityManager.infoGet e2 with
  | none =>
    simp only [hig] at h
    exact Option.noConfusion h
  | some info =>
    simp only [hig] at h
    by_cases hc : (info.components.get cid).isSome = true
    · rw [if_pos hc] at h
      cases hrep : w.storage.replaceEntityComponent e2 cid v with
      | none => rw [hrep] at h; cases h
      | some st =>
        rw [hrep] at h
        simp only [Option.map] at h
        cases h
        exact ⟨hinv, compView_refl _, fun e _ => rfl, hlive⟩
    · rw [if_neg hc] at h
      cases hup : (WorldContainer.addComponentFresh w e2 cid
          info).updateEntityArchetype e2 with
      | none => rw [hup] at h; cases h
      | some w3 =>
        rw [hup] at h
        simp only [Option.some_bind] at h
        cases hadd : w3.storage.addEntityComponent e2 cid v with
        | none => rw [hadd] at h; cases h
        | some st =>
          rw [hadd] at h
          simp only [Option.map] at h
          cases h
          have hgen : info.generation = e2.2 := (infoGet_elim hig).2
          have hinvF : (WorldContainer.addComponentFresh w e2 cid
              info).entityManager.entityInfo.Inv := setInfo_inv _ _ hinv
          have higF : (WorldContainer.addComponentFresh w e2 cid
              info).entityManager.infoGet e2 = some
              { info with components := (info.components.insert cid ()).1 } :=
            infoGet_setInfo_self _ hinv hig hgen
          obtain ⟨hreg3, hst3, hem3, hcv3, hsm3⟩ :=
            updateEntityArchetype_props higF hup
          have higE : w3.entityManager.infoGet e2 = some
              { info with
                components := (info.components.insert cid ()).1,
                archetypeId := sipHashIds
                  ((info.components.insert cid ()).1).keySeq } := by
            rw [hem3]
            exact infoGet_setInfo_self _ hinvF higF hgen
          have hinfoNe : ∀ e : Entity, e ≠ e2 →
              w3.entityManager.infoGet e = w.entityManager.infoGet e := by
            intro e hne
            by_cases hi : e.1 = e2.1
            · rw [infoGet_stale hi hne (infoGet_elim higE).1 hgen]
              rw [infoGet_stale hi hne (infoGet_elim hig).1 hgen]
            · rw [hem3]
              rw [infoGet_setInfo_ne _ hinvF hi]
              exact infoGet_congr_get
                (SpSet.get_setValueAt_ne hinv _ (by simpa using hi))
          refine ⟨?_, ?_, hinfoNe, ?_⟩
          · show w3.entityManager.entityInfo.Inv
            rw [hem3]
            exact setInfo_inv _ _ hinvF
          · exact hcv3
          · intro e i hie hi0
            by_cases he : e = e2
            · subst he
              rw [higE] at hie
              cases hie
              exact hsm3
            · rw [hinfoNe e he] at hie
              exact compView_isSome hcv3 (hlive e i hie hi0)

theorem removeComponentUntyped_gen {e : Entity} {info : EntityInfo} {cid : Nat}
    {st : TableStorage} {p : EntityInfo × TableStorage}
    (h : WorldContainer.removeComponentUntyped e info cid st = some p) :
    p.1.generation = info.generation := by
  unfold WorldContainer.removeComponentUntyped at h
  by_cases hc : (info.components.get cid).isSome = true
  · rw [if_pos hc] at h
    cases hg : st.eraseEntityComponent e cid with
    | none => rw [hg] at h; cases h
    | some st1 =>
      rw [hg] at h
      simp only [Option.map] at h
      cases h
      rfl
  · rw [if_neg hc] at h
    cases h
    rfl

/-- `remove_component` preserves the same transition facts. -/
theorem removeComponent_step {w w2 : WorldContainer} {e2 : Entity} {cid : Nat}
    (h : w.removeComponent e2 cid = some w2)
    (hinv : w.entityManager.entityInfo.Inv)
    (hlive : ∀ e info, w.entityManager.infoGet e = some info →
      info.archetypeId ≠ 0 →
      (mgrGet w.archetypeManager info.archetypeId).isSome = true) :
    w2.entityManager.entityInfo.Inv ∧
    compView w.archetypeManager w2.archetypeManager ∧
    (∀ e : Entity, e ≠ e2 → w2.entityManager.infoGet e = w.entityManager.infoGet e) ∧
    (∀ e info, w2.entityManager.infoGet e = some info → info.archetypeId ≠ 0 →
      (mgrGet w2.archetypeManager info.archetypeId).isSome = true) := by
  simp only [WorldContainer.removeComponent] at h
  cases hig : w.entityManager.infoGet e2 with
  | none =>
    simp only [hig] at h
    cases h
    exact ⟨hinv, compView_refl _, fun e _ => rfl, hlive⟩
  | some info =>
    simp only [hig] at h
    cases hrm : WorldContainer.removeComponentUntyped e2 info cid w.storage with
    | none => rw [hrm] at h; cases h
    | some p =>
      rw [hrm] at h
      simp only [Option.some_bind] at h
      have hgen : info.generation = e2.2 := (infoGet_elim hig).2
      have hgenp : p.1.generation = e2.2 :=
        (removeComponentUntyped_gen hrm).trans hgen
      have hinvM : ({ w with
          registrar := WorldContainer.registerCid w.registrar cid,
          storage := p.2,
          entityManager := w.entityManager.setInfo e2 p.1 } :
          WorldContainer).entityManager.entityInfo.Inv := setInfo_inv _ _ hinv
      have higM : ({ w with
          registrar := WorldContainer.registerCid w.registrar cid,
          storage := p.2,
          entityManager := w.entityManager.setInfo e2 p.1 } :
          WorldContainer).entityManager.infoGet e2 = some p.1 :=
        infoGet_setInfo_self _ hinv hig hgenp
      obtain ⟨hreg3, hst3, hem3, hcv3, hsm3⟩ := updateEntityArchetype_props higM h
      have higE : w2.entityManager.infoGet e2 = some
          { p.1 with archetypeId := sipHashIds p.1.components.keySeq } := by
        rw [hem3]
        exact infoGet_setInfo_self _ hinvM higM hgenp
      have hinfoNe : ∀ e : Entity, e ≠ e2 →
          w2.entityManager.infoGet e = w.entityManager.infoGet e := by
        intro e hne
        by_cases hi : e.1 = e2.1
        · rw [infoGet_stale hi hne (infoGet_elim higE).1 hgenp]
          rw [infoGet_stale hi hne (infoGet_elim hig).1 hgen]
        · rw [hem3]
          rw [infoGet_setInfo_ne _ hinvM hi]
          exact infoGet_congr_get
            (SpSet.get_setValueAt_ne hinv _ (by simpa using hi))
      refine ⟨?_, hcv3, hinfoNe, ?_⟩
      · rw [hem3]
        exact setInfo_inv _ _ hinvM
      · intro e i hie hi0
        by_cases he : e = e2
        · subst he
          rw [higE] at hie
          cases hie
          exact hsm3
        · rw [hinfoNe e he] at hie
          exact compView_isSome hcv3 (hlive e i hie hi0)

/-- `remove_entity` preserves the same transition facts; afterwards the
destroyed handle is dead. -/
theorem removeEntity_step {w w2 : WorldContainer} {e2 : Entity}
    (h : w.removeEntity e2 = some w2)
    (hinv : w.entityManager.entityInfo.Inv)
    (hlive : ∀ e info, w.entityManager.infoGet e = some info →
      info.archetypeId ≠ 0 →
      (mgrGet w.archetypeManager info.archetypeId).isSome = true) :
    w2.entityManager.entityInfo.Inv ∧
    compView w.archetypeManager w2.archetypeManager ∧
    (∀ e : Entity, e ≠ e2 → w2.entityManager.infoGet e = w.entityManager.infoGet e) ∧
    (∀ e info, w2.entityManager.infoGet e = some info → info.archetypeId ≠ 0 →
      (mgrGet w2.archetypeManager info.archetypeId).isSome = true) ∧
    w2.entityManager.infoGet e2 = none := by
  simp only [WorldContainer.removeEntity] at h
  cases hig : w.entityManager.infoGet e2 with
  | none =>
    simp only [hig] at h
    cases h
    exact ⟨hinv, compView_refl _, fun e _ => rfl, hlive, hig⟩
  | some info =>
    simp only [hig] at h
    obtain ⟨p, hp, hw2⟩ := Option.map_eq_some'.mp h
    subst hw2
    have hgen : info.generation = e2.2 := (infoGet_elim hig).2
    have hinvS : (w.entityManager.setInfo e2 p.1).entityInfo.Inv :=
      setInfo_inv _ _ hinv
    have hinfoNe : ∀ e : Entity, e ≠ e2 →
        ((w.entityManager.setInfo e2 p.1).destroyEntity e2).infoGet e =
          w.entityManager.infoGet e := by
      intro e hne
      unfold EntityAllocator.infoGet
      simp only [EntityAllocator.destroyEntity]
      by_cases hi : e.1 = e2.1
      · rw [SpSet.get_congrIdx _
          (show SpIdx.idx e = SpIdx.idx e2 by simpa using hi)]
        rw [SpSet.get_remove_self hinvS e2]
        rw [SpSet.get_congrIdx w.entityManager.entityInfo
          (show SpIdx.idx e = SpIdx.idx e2 by simpa using hi)]
        rw [(infoGet_elim hig).1]
        simp only [Option.none_bind, Option.some_bind]
        have hx : ¬ info.generation = e.2 := by
          intro hgeq
          exact hne (Prod.ext hi (hgeq ▸ hgen))
        rw [if_neg hx]
      · rw [SpSet.get_remove_ne hinvS
          (show SpIdx.idx e ≠ SpIdx.idx e2 by simpa using hi)]
        simp only [EntityAllocator.setInfo]
        rw [SpSet.get_setValueAt_ne hinv _
          (show SpIdx.idx e ≠ SpIdx.idx e2 by simpa using hi)]
    have hdead : ((w.entityManager.setInfo e2 p.1).destroyEntity e2).infoGet e2 =
        none := by
      unfold EntityAllocator.infoGet
      simp only [EntityAllocator.destroyEntity]
      rw [SpSet.get_remove_self hinvS e2]
      rfl
    refine ⟨?_, compView_refl _, hinfoNe, ?_, hdead⟩
    · exact SpSet.inv_remove hinvS e2
    · intro e i hie hi0
      by_cases he : e = e2
      · subst he
        rw [hdead] at hie
        cases hie
      · rw [hinfoNe e he] at hie
        exact hlive e i hie hi0

theorem infoGet_new (e : Entity) : EntityAllocator.new.infoGet e = none :=
  infoGet_noneOfGetNone (by simp [EntityAllocator.new, SpSet.get, SpSet.getKey,
    SpSet.empty])

theorem queryMatches_dead {w : WorldContainer} {qarch : Nat} {e : Entity}
    (hie : w.entityManager.infoGet e = none) : queryMatches w qarch e = false := by
  unfold queryMatches
  rw [hie]

theorem queryMatches_arch0 {w : WorldContainer} {qarch : Nat} {e : Entity}
    {i : EntityInfo} (hie : w.entityManager.infoGet e = some i)
    (hi0 : i.archetypeId = 0) (h0 : mgrGet w.archetypeManager 0 = none) :
    queryMatches w qarch e = false := by
  unfold queryMatches
  rw [hie]
  show (match mgrGet w.archetypeManager qarch,
      mgrGet w.archetypeManager i.archetypeId with
    | some qa, some ea => includesFully ea qa
    | _, _ => false) = false
  rw [hi0, h0]
  cases mgrGet w.archetypeManager qarch <;> rfl

/-- The run invariant: the allocator's sparse set is well-formed, the query
archetype is interned, every live entity with a non-default archetype id has
its archetype interned, and — whenever no archetype hashes to the default id
0 — the cached match set coincides with the spec predicate. -/
structure QWInv (w : WorldContainer) (q : QueryState) : Prop where
  hinv : w.entityManager.entityInfo.Inv
  harch : (mgrGet w.archetypeManager q.arch).isSome = true
  hlive : ∀ e info, w.entityManager.infoGet e = some info →
    info.archetypeId ≠ 0 →
    (mgrGet w.archetypeManager info.archetypeId).isSome = true
  hmem : mgrGet w.archetypeManager 0 = none →
    ∀ e : Entity, (e ∈ q.ents) ↔ queryMatches w q.arch e = true

theorem runStep_preserves {st st2 : WorldContainer × QueryState} {op : WOp}
    (h : runStep st op = some st2) (hI : QWInv st.1 st.2) : QWInv st2.1 st2.2 := by
  obtain ⟨w, q⟩ := st
  obtain ⟨w2, q2⟩ := st2
  obtain ⟨hinv, harch, hlive, hmem⟩ := hI
  cases op with
  | spawn =>
    simp only [runStep] at h
    obtain ⟨p, hp, hpe⟩ := Option.map_eq_some'.mp h
    injection hpe with he1 he2
    subst he1
    subst he2
    obtain ⟨e0, wa⟩ := p
    obtain ⟨hinv2, ham, hne, hself, hbefore⟩ := newEntity_step hp hinv
    have hcv : compView w.archetypeManager wa.archetypeManager := by
      rw [ham]
      exact compView_refl _
    refine ⟨hinv2, ?_, ?_, ?_⟩
    · rw [ham]
      exact harch
    · intro e i hie hi0
      rw [ham]
      by_cases he : e = e0
      · subst he
        rw [hself] at hie
        cases hie
        exact absurd rfl hi0
      · rw [hne e he] at hie
        exact hlive e i hie hi0
    · intro h0 e
      have h0w : mgrGet w.archetypeManager 0 = none := by
        rw [← ham]
        exact h0
      by_cases he : e = e0
      · subst he
        constructor
        · intro hmm
          have hx := (hmem h0w e).mp hmm
          rw [queryMatches_dead hbefore] at hx
          cases hx
        · intro hq
          rw [queryMatches_arch0 hself rfl h0] at hq
          cases hq
      · rw [queryMatches_preserved e (hne e he) hcv hlive harch h0]
        exact hmem h0w e
  | addC e2 cid v =>
    simp only [runStep] at h
    cases hadd : w.addComponent e2 cid v with
    | none => rw [hadd] at h; cases h
    | some wa =>
      rw [hadd] at h
      simp only [Option.some_bind] at h
      cases hnot : notifyQuery q wa e2 with
      | none => rw [hnot] at h; cases h
      | some qb =>
        rw [hnot] at h
        simp only [Option.map] at h
        injection h with h1
        injection h1 with hew hq
        subst hew
        subst hq
        obtain ⟨hinv2, hcv, hinfoNe, hlive2⟩ := addComponent_step hadd hinv hlive
        obtain ⟨harchEq, hmemNe, hmemSelf⟩ := notifyQuery_spec hnot
        refine ⟨hinv2, ?_, hlive2, ?_⟩
        · rw [harchEq]
          exact compView_isSome hcv harch
        · intro h0 e
          have h0w : mgrGet w.archetypeManager 0 = none := compView_none hcv h0
          rw [harchEq]
          by_cases he : e = e2
          · subst he
            exact hmemSelf
          · rw [queryMatches_preserved e (hinfoNe e he) hcv hlive harch h0]
            rw [hmemNe e he]
            exact hmem h0w e
  | removeC e2 cid =>
    simp only [runStep] at h
    cases hrem : w.removeComponent e2 cid with
    | none => rw [hrem] at h; cases h
    | some wa =>
      rw [hrem] at h
      simp only [Option.some_bind] at h
      cases hnot : notifyQuery q wa e2 with
      | none => rw [hnot] at h; cases h
      | some qb =>
        rw [hnot] at h
        simp only [Option.map] at h
        injection h with h1
        injection h1 with hew hq
        subst hew
        subst hq
        obtain ⟨hinv2, hcv, hinfoNe, hlive2⟩ := removeComponent_step hrem hinv hlive
        obtain ⟨harchEq, hmemNe, hmemSelf⟩ := notifyQuery_spec hnot
        refine ⟨hinv2, ?_, hlive2, ?_⟩
        · rw [harchEq]
          exact compView_isSome hcv harch
        · intro h0 e
          have h0w : mgrGet w.archetypeManager 0 = none := compView_none hcv h0
          rw [harchEq]
          by_cases he : e = e2
          · subst he
            exact hmemSelf
          · rw [queryMatches_preserved e (hinfoNe e he) hcv hlive harch h0]
            rw [hmemNe e he]
            exact hmem h0w e
  | destroy e2 =>
    simp only [runStep] at h
    cases hrem : w.removeEntity e2 with
    | none => rw [hrem] at h; cases h
    | some wa =>
      rw [hrem] at h
      simp only [Option.some_bind] at h
      cases hnot : notifyQuery q wa e2 with
      | none => rw [hnot] at h; cases h
      | some qb =>
        rw [hnot] at h
        simp only [Option.map] at h
        injection h with h1
        injection h1 with hew hq
        subst hew
        subst hq
        obtain ⟨hinv2, hcv, hinfoNe, hlive2, hdead⟩ := removeEntity_step hrem hinv hlive
        obtain ⟨harchEq, hmemNe, hmemSelf⟩ := notifyQuery_spec hnot
        refine ⟨hinv2, ?_, hlive2, ?_⟩
        · rw [harchEq]
          exact compView_isSome hcv harch
        · intro h0 e
          have h0w : mgrGet w.archetypeManager 0 = none := compView_none hcv h0
          rw [harchEq]
          by_cases he : e = e2
          · subst he
            exact hmemSelf
          · rw [queryMatches_preserved e (hinfoNe e he) hcv hlive harch h0]
            rw [hmemNe e he]
            exact hmem h0w e

theorem runOps_preserves {ops : List WOp} :
    ∀ {st st2 : WorldContainer × QueryState},
      runOps st ops = some st2 → QWInv st.1 st.2 → QWInv st2.1 st2.2 := by
  induction ops with
  | nil =>
    intro st st2 h hI
    cases h
    exact hI
  | cons op rest ih =>
    intro st st2 h hI
    simp only [runOps] at h
    cases hs : runStep st op with
    | none => rw [hs] at h; cases h
    | some st1 =>
      rw [hs] at h
      simp only [Option.some_bind] at h
      exact ih h (runStep_preserves hs hI)

theorem initQuery_eq (terms : List QTerm) :
    initQuery terms = (computeComponentSet terms SpSet.empty).map (fun cs =>
      ({ WorldContainer.new with
          archetypeManager := (archetypeOf WorldContainer.new.archetypeManager cs).2 },
        ⟨(archetypeOf WorldContainer.new.archetypeManager cs).1, []⟩)) := by
  unfold initQuery
  cases computeComponentSet terms SpSet.empty <;> rfl

theorem initQuery_inv {terms : List QTerm} {w : WorldContainer} {q : QueryState}
    (h : initQuery terms = some (w, q)) : QWInv w q := by
  rw [initQuery_eq] at h
  obtain ⟨cs, hcs, heq⟩ := Option.map_eq_some'.mp h
  injection heq with hw hq
  subst hw
  subst hq
  refine ⟨SpSet.inv_empty, ?_, ?_, ?_⟩
  · obtain ⟨a, ha⟩ := mgrGet_archetypeOf_self WorldContainer.new.archetypeManager cs
    show (mgrGet (archetypeOf WorldContainer.new.archetypeManager cs).2
      (archetypeOf WorldContainer.new.archetypeManager cs).1).isSome = true
    rw [ha]
    rfl
  · intro e i hie hi0
    have hie2 : EntityAllocator.new.infoGet e = some i := hie
    rw [infoGet_new e] at hie2
    cases hie2
  · intro h0 e
    have hdd : ({ WorldContainer.new with
        archetypeManager := (archetypeOf WorldContainer.new.archetypeManager cs).2 } :
        WorldContainer).entityManager.infoGet e = none := infoGet_new e
    rw [queryMatches_dead hdd]
    simp

/-- C2: after creating a query on a fresh world and running any sequence of
mutations — each change/destroy notification delivered right after its
mutation, so the final state is a stable point — the cached match set holds
exactly the live entities whose stored archetype's component set includes
the whole component set of the query's archetype.  The hypothesis that no
archetype is interned under the default id 0 rules out a hash collision
with the placeholder archetype id of freshly spawned entities.  In
particular a destroyed entity (no `EntityInfo`) is never in the set. -/
theorem c2_query_match_set (terms : List QTerm) (ops : List WOp)
    (w : WorldContainer) (q : QueryState)
    (hrun : runQuery terms ops = some (w, q))
    (h0 : mgrGet w.archetypeManager 0 = none) (e : Entity) :
    (e ∈ q.ents) ↔
      ∃ info qa ea, w.entityManager.infoGet e = some info ∧
        mgrGet w.archetypeManager q.arch = some qa ∧
        mgrGet w.archetypeManager info.archetypeId = some ea ∧
        includesFully ea qa = true := by
  unfold runQuery at hrun
  cases hinit : initQuery terms with
  | none => rw [hinit] at hrun; cases hrun
  | some st0 =>
    rw [hinit] at hrun
    simp only [Option.some_bind] at hrun
    have hI0 : QWInv st0.1 st0.2 :=
      initQuery_inv (show initQuery terms = some (st0.1, st0.2) from hinit)
    have hI : QWInv w q := runOps_preserves hrun hI0
    rw [hI.hmem h0 e]
    unfold queryMatches
    cases hie : w.entityManager.infoGet e with
    | none =>
      constructor
      · intro hx
        cases hx
      · rintro ⟨i2, qa2, ea2, hx1, _, _, _⟩
        cases hx1
    | some info =>
      show (match mgrGet w.archetypeManager q.arch,
          mgrGet w.archetypeManager info.archetypeId with
        | some qa, some ea => includesFully ea qa
        | _, _ => false) = true ↔ _
      cases hqa : mgrGet w.archetypeManager q.arch with
      | none =>
        cases hea : mgrGet w.archetypeManager info.archetypeId with
        | none =>
          constructor
          · intro hx
            cases hx
          · rintro ⟨i2, qa2, ea2, hx1, hx2, _, _⟩
            cases hx2
        | some ea =>
          constructor
          · intro hx
            cases hx
          · rintro ⟨i2, qa2, ea2, hx1, hx2, _, _⟩
            cases hx2
      | some qa =>
        cases hea : mgrGet w.archetypeManager info.archetypeId with
        | none =>
          constructor
          · intro hx
            cases hx
          · rintro ⟨i2, qa2, ea2, hx1, hx2, hx3, hx4⟩
            cases hx1
            rw [hea] at hx3
            cases hx3
        | some ea =>
          constructor
          · intro hx
            exact ⟨info, qa, ea, rfl, rfl, hea, hx⟩
          · rintro ⟨i2, qa2, ea2, hx1, hx2, hx3, hx4⟩
            cases hx1
            cases hx2
            rw [hea] at hx3
            cases hx3
            exact hx4

/-- A Scenario-F style run: a query `(Read<1>, Read<2>)`, then spawn an
entity, give it component 1, then component 2. -/
def c2wTerms : List QTerm := [QTerm.readC 1, QTerm.readC 2]

def c2wOps : List WOp := [WOp.spawn, WOp.addC (0, 0) 1 5, WOp.addC (0, 0) 2 6]

def c2wSt : WorldContainer × QueryState :=
  (runQuery c2wTerms c2wOps).getD (WorldContainer.new, ⟨0, []⟩)

theorem c2_query_match_set_witness :
    runQuery c2wTerms c2wOps = some (c2wSt.1, c2wSt.2) ∧
    mgrGet c2wSt.1.archetypeManager 0 = none ∧
    (((0, 0) ∈ c2wSt.2.ents) ↔
      ∃ info qa ea, c2wSt.1.entityManager.infoGet (0, 0) = some info ∧
        mgrGet c2wSt.1.archetypeManager c2wSt.2.arch = some qa ∧
        mgrGet c2wSt.1.archetypeManager info.archetypeId = some ea ∧
        includesFully ea qa = true) :=
  ⟨by rfl, by rfl,
    c2_query_match_set c2wTerms c2wOps c2wSt.1 c2wSt.2 (by rfl) (by rfl) (0, 0)⟩

theorem c8_add_resource_replaces_and_drops_once_witness :
    (WorldContainer.new.sendResources.Inv ∧
     WorldContainer.new.sendResources.get 0 = none) ∧
    ((WorldContainer.new.addResource 0 5).bind (fun w1 => w1.addResource 0 9)).map
        (fun w2 => (resourcesGetValue w2.sendResources 0,
          (w2.sendResources.get 0).map ResourceData.log)) =
      some (some 9, some [REvent.written 5, REvent.dropped 5, REvent.written 9]) :=
  ⟨⟨by decide, by decide⟩,
    c8_add_resource_replaces_and_drops_once WorldContainer.new 0 5 9 (by decide) (by decide)⟩

end Kecs
